import Mathlib

/-!
Verification of the bounded-concurrency snippet-fetch pipeline of the
dolphin-mcp bridge: the concurrency-limited task mapper
`mapWithConcurrency` (src/util/concurrency.ts), the retry/timeout
snippet fetcher `fetchSnippetsInParallel`
(src/mcp/tools/snippet_fetcher.ts), and the staged payload trimmer of
the `search_knowledge` tool (src/mcp/tools/search_knowledge.ts).

The TypeScript sources are embedded shallowly:

* the single-threaded cooperative scheduler of `mapWithConcurrency`
  becomes a step function on a pool-accounting state, driven by an
  adversarial completion schedule (a list of picks choosing which
  in-flight task finishes next);
* the per-request retry loop of the snippet fetcher becomes a recursive
  function over a per-attempt outcome oracle, recording the backoff
  delays it awaits;
* the trimmer's in-place mutation of the assembled `CallToolResult`
  becomes a pure function over a response record; its byte measure
  models `Buffer.byteLength(JSON.stringify(result), "utf8")` over
  strings represented as sequences of UTF-16 code units, including
  JSON.stringify's well-formed escaping of lone surrogates.
-/

namespace DolphinMCP

/-- A JavaScript `Error` as far as the pipeline observes it: its `name`
and `message` fields. -/
structure JsError where
  name : String
  message : String
deriving Repr, DecidableEq

/-- The completed behavior of one invocation of the async mapper
`(item, index) => Promise<R>` in a fixed run: it can resolve with data,
reject, or throw synchronously before returning a promise. -/
inductive MapperOutcome (R : Type) where
  | resolve (data : R)
  | reject (error : JsError)
  | throwSync (error : JsError)
deriving Repr, DecidableEq

/-- `TaskResult` of src/util/concurrency.ts:
`{ index, success, data?, error? }`. -/
structure TaskResult (R : Type) where
  index : Nat
  success : Bool
  data : Option R
  error : Option JsError
deriving Repr, DecidableEq

/-- `runTask`'s recording of one finished mapper invocation
(src/util/concurrency.ts, the `try`/`catch` around
`await mapper(item, index)`): a resolved promise is stored as
`{index, success: true, data}`; a rejection and a synchronous throw are
caught by the same `catch` and stored as `{index, success: false,
error}`. -/
def record {R : Type} (index : Nat) : MapperOutcome R → TaskResult R
  | .resolve d => ⟨index, true, some d, none⟩
  | .reject e => ⟨index, false, none, some e⟩
  | .throwSync e => ⟨index, false, none, some e⟩

/-- `Math.max(1, options?.maxConcurrent ?? 8)` of `mapWithConcurrency`,
as a natural number. -/
def effConcurrency (maxConcurrent : Option Int) : Nat :=
  (max 1 (maxConcurrent.getD 8)).toNat

/-- The per-call accounting of one `mapWithConcurrency` run:
`currentIndex` (next not-yet-started input position), the indices of
in-flight tasks, the `results` array (`new Array(items.length)`; a slot
is `none` until the task's `finally` block records it), and the list of
indices at which the mapper has been invoked, in invocation order. -/
structure PoolState (R : Type) where
  currentIndex : Nat
  active : List Nat
  results : List (Option (TaskResult R))
  started : List Nat
deriving Repr, DecidableEq

/-- State of `mapWithConcurrency` on `N` items just after the initial
synchronous batch of `min(maxConcurrent, N)` tasks has been started. -/
def initPool (R : Type) (N maxC : Nat) : PoolState R :=
  { currentIndex := min maxC N
    active := List.range (min maxC N)
    results := List.replicate N none
    started := List.range (min maxC N) }

/-- One completion boundary of `mapWithConcurrency`'s cooperative
scheduler: the event loop finishes an arbitrary in-flight task (chosen
by the adversarial `pick`), its `finally` block records the result at
the task's original index, and — if unstarted items remain — starts the
next item in input order (`runTask(currentIndex++)`).  With no task in
flight nothing can complete and the state is unchanged. -/
def stepPool {R : Type} (N : Nat) (outcome : Nat → MapperOutcome R)
    (s : PoolState R) (pick : Nat) : PoolState R :=
  if s.active.isEmpty then s
  else
    let i := s.active.getD (pick % s.active.length) 0
    let results2 := s.results.set i (some (record i (outcome i)))
    let active2 := s.active.erase i
    if s.currentIndex < N then
      { currentIndex := s.currentIndex + 1
        active := active2 ++ [s.currentIndex]
        results := results2
        started := s.started ++ [s.currentIndex] }
    else
      { s with active := active2, results := results2 }

/-- Iterated completion steps for a whole completion schedule. -/
def runPool {R : Type} (N : Nat) (outcome : Nat → MapperOutcome R)
    (s : PoolState R) (sched : List Nat) : PoolState R :=
  sched.foldl (stepPool N outcome) s

/-- `mapWithConcurrency(items, mapper, options)` for one run: `N` is
`items.length`, `outcome i` the completed behavior of
`mapper(items[i], i)` in this run, and `sched` the order in which the
event loop delivers completions.  Returns the `results` array. -/
def mapWithConcurrency {R : Type} (N : Nat) (outcome : Nat → MapperOutcome R)
    (maxConcurrent : Option Int) (sched : List Nat) :
    List (Option (TaskResult R)) :=
  (runPool N outcome (initPool R N (effConcurrency maxConcurrent)) sched).results

/-- Number of filled slots of the `results` array. -/
def countSome {α : Type} : List (Option α) → Nat
  | [] => 0
  | none :: l => countSome l
  | some _ :: l => countSome l + 1

/-- Invariant tying together the accounting of a `mapWithConcurrency`
run with concurrency bound `maxC` on `N` items. -/
structure PoolInv {R : Type} (N maxC : Nat) (outcome : Nat → MapperOutcome R)
    (s : PoolState R) : Prop where
  results_len : s.results.length = N
  curr_le : s.currentIndex ≤ N
  active_bound : s.active.length ≤ maxC
  active_nodup : s.active.Nodup
  active_lt : ∀ i ∈ s.active, i < s.currentIndex
  count_eq : countSome s.results + s.active.length = s.currentIndex
  pending : ∀ i, i < N →
    (s.results.getD i none = none ↔ (s.currentIndex ≤ i ∨ i ∈ s.active))
  recorded : ∀ i r, s.results.getD i none = some r → r = record i (outcome i)
  started_eq : s.started = List.range s.currentIndex
  active_empty : s.active = [] → s.currentIndex = N

/-- `SnippetFetchRequest` of src/mcp/tools/snippet_fetcher.ts. -/
structure SnippetFetchRequest where
  repo : String
  path : String
  startLine : Int
  endLine : Int
  contextLinesBefore : Option Int := none
  contextLinesAfter : Option Int := none
deriving Repr, DecidableEq, Inhabited

/-- The fields of the remote `/file` response that the fetcher reads:
`result.content` and `result._meta?.warnings`. -/
structure FileSliceResponse where
  content : String
  metaWarnings : Option (List String) := none
deriving Repr, DecidableEq

/-- The expanded-range bookkeeping the mapper stores next to the API
response (`const metadata = {...}` in the source). -/
structure SliceMetadata where
  actualStartLine : Int
  actualEndLine : Int
  chunkStartLine : Int
  chunkEndLine : Int
deriving Repr, DecidableEq

/-- `SnippetFetchOptions` of the source.  `signalAborted` models
whether the externally supplied `options.signal` is in the aborted
state; the source destructures it as the unused `_signal`.
`requestTimeoutMs` only sizes the per-attempt timer whose firing
surfaces as an attempt outcome named `"AbortError"`, so it does not
otherwise appear in the pure model. -/
structure SnippetFetchOptions where
  maxConcurrent : Option Int := none
  requestTimeoutMs : Option Int := none
  retryAttempts : Option Nat := none
  signalAborted : Bool := false
deriving Repr, DecidableEq

/-- `SnippetFetchResult` of the source. -/
structure SnippetFetchResult where
  content : String
  warnings : Option (List String)
  actualStartLine : Option Int
  actualEndLine : Option Int
  chunkStartLine : Option Int
  chunkEndLine : Option Int
deriving Repr, DecidableEq

/-- The failure placeholder
`{content: "", warnings: ["Failed to load snippet"]}`. -/
def failurePlaceholder : SnippetFetchResult :=
  ⟨"", some ["Failed to load snippet"], none, none, none, none⟩

/-- `Math.max(1, request.startLine - (request.contextLinesBefore || 0))`. -/
def fetchStartLine (req : SnippetFetchRequest) : Int :=
  max 1 (req.startLine - req.contextLinesBefore.getD 0)

/-- `request.endLine + (request.contextLinesAfter || 0)`. -/
def fetchEndLine (req : SnippetFetchRequest) : Int :=
  req.endLine + req.contextLinesAfter.getD 0

/-- Trace of the retry loop of one request: its final outcome, the
number of fetch attempts actually made, and the backoff delays awaited
between attempts, in order. -/
structure AttemptTrace where
  outcome : Except JsError FileSliceResponse
  attemptsMade : Nat
  delaysMs : List Nat
deriving Repr

/-- The `for (let attempt = 0; attempt <= retryAttempts; attempt++)`
retry loop inside `fetchSnippetsInParallel`'s mapper, for one request.
`attemptResult a` is the outcome of attempt number `a` of the remote
fetch in this run: `.error e` covers both a genuine remote error and
the per-attempt timeout, which fires the attempt's own
`AbortController` and surfaces as an error whose `name` is
`"AbortError"`.  An error named `"AbortError"` is rethrown without
retrying (`if (err.name === "AbortError") throw error`); any other
failure is retried after a `Math.pow(2, attempt) * 100` ms backoff
while `attempt < retryAttempts`; when attempts are exhausted the last
error is thrown. -/
def attemptLoop (attemptResult : Nat → Except JsError FileSliceResponse)
    (retryAttempts : Nat) (attempt : Nat) : AttemptTrace :=
  match attemptResult attempt with
  | .ok slice => ⟨.ok slice, 1, []⟩
  | .error e =>
    if e.name = "AbortError" then ⟨.error e, 1, []⟩
    else if attempt < retryAttempts then
      let rest := attemptLoop attemptResult retryAttempts (attempt + 1)
      ⟨rest.outcome, rest.attemptsMade + 1, (2 ^ attempt * 100) :: rest.delaysMs⟩
    else ⟨.error e, 1, []⟩
termination_by retryAttempts - attempt

/-- The whole per-request processing as seen from `mapWithConcurrency`:
the retry loop plus the `options.signal` binding, which the source
names `_signal` and never consults. -/
def runSnippetAttempts (_signal : Bool)
    (attemptResult : Nat → Except JsError FileSliceResponse)
    (retryAttempts : Nat) : AttemptTrace :=
  attemptLoop attemptResult retryAttempts 0

/-- The mapper outcome of one request: a successful attempt resolves
with the slice and the expanded-range metadata; an exhausted or aborted
loop rejects with the thrown error. -/
def snippetMapperOutcome (signalAborted : Bool)
    (attemptResult : Nat → Except JsError FileSliceResponse)
    (req : SnippetFetchRequest) (retryAttempts : Nat) :
    MapperOutcome (FileSliceResponse × SliceMetadata) :=
  match (runSnippetAttempts signalAborted attemptResult retryAttempts).outcome with
  | .ok slice =>
    .resolve (slice, ⟨fetchStartLine req, fetchEndLine req, req.startLine, req.endLine⟩)
  | .error e => .reject e

/-- The final `results.forEach` transformation: a successful task with
data becomes a full `SnippetFetchResult`; anything else becomes the
failure placeholder. -/
def toSnippetResult (r : Option (TaskResult (FileSliceResponse × SliceMetadata))) :
    SnippetFetchResult :=
  match r with
  | some ⟨_, true, some (slice, md), _⟩ =>
    ⟨slice.content, slice.metaWarnings, some md.actualStartLine, some md.actualEndLine,
      some md.chunkStartLine, some md.chunkEndLine⟩
  | _ => failurePlaceholder

/-- `fetchSnippetsInParallel(requests, options)` for one run.
`attemptResult i a` is the outcome of attempt `a` of the remote
`restGetFileSlice` call for request `i`; `sched` is the completion
order delivered by the event loop.  The returned indexed map is
represented as the list of its values at positions `0 .. N-1`. -/
def fetchSnippetsInParallel (requests : List SnippetFetchRequest)
    (attemptResult : Nat → Nat → Except JsError FileSliceResponse)
    (opts : SnippetFetchOptions) (sched : List Nat) : List SnippetFetchResult :=
  let retryAttempts := opts.retryAttempts.getD 1
  (mapWithConcurrency requests.length
    (fun i => snippetMapperOutcome opts.signalAborted (attemptResult i)
      (requests.getD i default) retryAttempts)
    (some (opts.maxConcurrent.getD 8)) sched).map toSnippetResult

/-- A per-attempt timeout as the retry loop observes it: the timeout
fires the attempt's `AbortController`, so `restGetFileSlice` rejects
with an error named `"AbortError"`, on every attempt. -/
def timeoutAttempt : Nat → Except JsError FileSliceResponse :=
  fun _ => .error ⟨"AbortError", "The operation was aborted"⟩

/-- A transient remote failure (its error is not named `"AbortError"`),
on every attempt. -/
def networkFailAttempt : Nat → Except JsError FileSliceResponse :=
  fun _ => .error ⟨"FetchError", "network failure"⟩

/-- A fetch behavior that fails once with a transient error and then
recovers. -/
def recoverAttempt : Nat → Except JsError FileSliceResponse :=
  fun a => if a = 0 then .error ⟨"FetchError", "boom"⟩
    else .ok ⟨"recovered", none⟩

/-- A sample request. -/
def sampleRequest : SnippetFetchRequest :=
  { repo := "repoa", path := "src/a.ts", startLine := 1, endLine := 10 }

/-- A fetch behavior that times out (aborts) on attempt 0 and would
succeed from attempt 1 on, for every request index. -/
def abortThenOk : Nat → Nat → Except JsError FileSliceResponse :=
  fun _ a => if a = 0 then .error ⟨"AbortError", "The operation was aborted"⟩
    else .ok ⟨"snippet text", none⟩

/-- Options used in the concrete snippet-fetch scenarios:
`retryAttempts = 1`, signal not aborted. -/
def cexOpts : SnippetFetchOptions :=
  { maxConcurrent := none, requestTimeoutMs := none, retryAttempts := some 1,
    signalAborted := false }

/-- A JavaScript string as its sequence of UTF-16 code units. -/
abbrev JStr := List Nat

/-- Code units of an ASCII Lean string literal, used for the fixed JSON
keys and short values of the response object. -/
def ascii (s : String) : JStr := s.data.map Char.toNat

/-- Whether a code unit is a UTF-16 high (leading) surrogate. -/
def isHighSurrogate (c : Nat) : Bool := 0xD800 ≤ c && c ≤ 0xDBFF

/-- Whether a code unit is a UTF-16 low (trailing) surrogate. -/
def isLowSurrogate (c : Nat) : Bool := 0xDC00 ≤ c && c ≤ 0xDFFF

/-- UTF-8 byte count of `JSON.stringify`'s rendering of one
non-surrogate code unit inside a string literal: `"` and `\` become
two-character escapes; backspace, tab, newline, form feed and carriage
return become two-character escapes; other control characters become
six-character `\uXXXX` escapes; the rest is emitted as-is and encoded
in UTF-8 (1 byte below U+0080, 2 below U+0800, else 3). -/
def escapedUnitBytes (c : Nat) : Nat :=
  if c = 34 ∨ c = 92 then 2
  else if c = 8 ∨ c = 9 ∨ c = 10 ∨ c = 12 ∨ c = 13 then 2
  else if c < 32 then 6
  else if c < 128 then 1
  else if c < 2048 then 2
  else 3

/-- UTF-8 byte count of `JSON.stringify`'s rendering of a string's
contents (without the enclosing quotes): a high surrogate directly
followed by a low surrogate forms a code point above U+FFFF (4 UTF-8
bytes); a lone surrogate is escaped as the six ASCII characters
`\uXXXX` by well-formed `JSON.stringify`. -/
def jsonStrBytes : JStr → Nat
  | [] => 0
  | [c] =>
    if isHighSurrogate c ∨ isLowSurrogate c then 6 else escapedUnitBytes c
  | c :: d :: rest =>
    if isHighSurrogate c then
      if isLowSurrogate d then 4 + jsonStrBytes rest
      else 6 + jsonStrBytes (d :: rest)
    else if isLowSurrogate c then 6 + jsonStrBytes (d :: rest)
    else escapedUnitBytes c + jsonStrBytes (d :: rest)

/-- A JSON value as `JSON.stringify` sees the trimmed response:
`undefined`-valued fields are omitted at object-construction time. -/
inductive JVal where
  | jnull
  | jbool (b : Bool)
  | jnum (n : Int)
  | jstr (s : JStr)
  | jarr (elems : List JVal)
  | jobj (fields : List (JStr × JVal))
deriving Repr

/-- Number of decimal digits of a natural number. -/
def natDigits (n : Nat) : Nat :=
  if h : n < 10 then 1 else natDigits (n / 10) + 1
termination_by n
decreasing_by
  exact Nat.div_lt_self (by omega) (by omega)

/-- Byte count of `JSON.stringify`'s rendering of an integer-valued
JavaScript number. -/
def intBytes (n : Int) : Nat :=
  if n < 0 then natDigits (-n).toNat + 1 else natDigits n.toNat

mutual

/-- `jsonSizeBytes` of src/util/payloadCap.ts:
`Buffer.byteLength(JSON.stringify(obj), "utf8")`, over the JSON value
model.  `JSON.stringify` emits no whitespace: `{"k":v,...}` and
`[v,...]`. -/
def jsonSizeBytes : JVal → Nat
  | .jnull => 4
  | .jbool b => if b then 4 else 5
  | .jnum n => intBytes n
  | .jstr s => 2 + jsonStrBytes s
  | .jarr xs => 2 + jarrBytes xs
  | .jobj fs => 2 + jobjBytes fs

/-- Bytes of an array's comma-separated element list. -/
def jarrBytes : List JVal → Nat
  | [] => 0
  | [v] => jsonSizeBytes v
  | v :: w :: rest => jsonSizeBytes v + 1 + jarrBytes (w :: rest)

/-- Bytes of an object's comma-separated `"key":value` field list. -/
def jobjBytes : List (JStr × JVal) → Nat
  | [] => 0
  | [kv] => 2 + jsonStrBytes kv.1 + 1 + jsonSizeBytes kv.2
  | kv :: kv2 :: rest =>
    2 + jsonStrBytes kv.1 + 1 + jsonSizeBytes kv.2 + 1 + jobjBytes (kv2 :: rest)

end

/-- A content block of the assembled `CallToolResult`: a `TextContent`
`{type: "text", text}` or a resource block
`{type: "resource", resource: {uri, mimeType, text}}`. -/
inductive Block where
  | text (text : JStr)
  | resource (uri : JStr) (mimeType : JStr) (text : JStr)
deriving Repr, DecidableEq

/-- JSON value of a content block, with keys in insertion order. -/
def blockJVal : Block → JVal
  | .text t => .jobj [(ascii "type", .jstr (ascii "text")), (ascii "text", .jstr t)]
  | .resource u m t => .jobj
      [(ascii "type", .jstr (ascii "resource")),
       (ascii "resource", .jobj
         [(ascii "uri", .jstr u), (ascii "mimeType", .jstr m),
          (ascii "text", .jstr t)])]

/-- One compact `_meta.hits` record
`{chunk_id, repo, path, start_line, end_line, score}`; scores are
modeled at integer values. -/
structure MetaHit where
  chunk_id : JStr
  repo : JStr
  path : JStr
  start_line : Int
  end_line : Int
  score : Int
deriving Repr, DecidableEq

/-- JSON value of a `_meta.hits` record, keys in insertion order. -/
def metaHitJVal (h : MetaHit) : JVal :=
  .jobj [(ascii "chunk_id", .jstr h.chunk_id), (ascii "repo", .jstr h.repo),
         (ascii "path", .jstr h.path), (ascii "start_line", .jnum h.start_line),
         (ascii "end_line", .jnum h.end_line), (ascii "score", .jnum h.score)]

/-- The remaining `_meta` fields of the handler's `result`; `none`
models a field whose value is `undefined` (omitted by
`JSON.stringify`). -/
structure MetaFields where
  cursor : Option JStr := none
  estimated_total : Option Int := none
  complete : Option Bool := none
  warnings : Option (List JStr) := none
  model : Option JStr := none
  top_k : Option Int := none
  mcp_latency_ms : Int := 0
deriving Repr, DecidableEq

/-- An optional object field: omitted when the value is `undefined`. -/
def optField (key : String) : Option JVal → List (JStr × JVal)
  | none => []
  | some v => [(ascii key, v)]

/-- The `_meta` fields after `hits`, in the source's insertion order:
`cursor, estimated_total, complete, warnings, model, top_k,
mcp_latency_ms`. -/
def metaTail (m : MetaFields) : List (JStr × JVal) :=
  optField "cursor" (m.cursor.map .jstr)
    ++ optField "estimated_total" (m.estimated_total.map .jnum)
    ++ optField "complete" (m.complete.map .jbool)
    ++ optField "warnings" (m.warnings.map (fun w => .jarr (w.map .jstr)))
    ++ optField "model" (m.model.map .jstr)
    ++ optField "top_k" (m.top_k.map .jnum)
    ++ [(ascii "mcp_latency_ms", .jnum m.mcp_latency_ms)]

/-- JSON value of `result._meta`, keys in the source's insertion order:
`hits` first, then `metaTail`. -/
def metaJVal (metaHits : List MetaHit) (m : MetaFields) : JVal :=
  .jobj ((ascii "hits", .jarr (metaHits.map metaHitJVal)) :: metaTail m)

/-- The mutable parts of the handler's `result` object during trimming:
the `content` block list, the `_meta.hits` list (the same `metaHits`
array the stage-4 loop pops), and the remaining `_meta` fields. -/
structure TrimState where
  content : List Block
  metaHits : List MetaHit
  meta : MetaFields
deriving Repr, DecidableEq

/-- JSON value of the whole `result`:
`{content, isError: false, _meta}`. -/
def resultJVal (s : TrimState) : JVal :=
  .jobj [(ascii "content", .jarr (s.content.map blockJVal)),
         (ascii "isError", .jbool false),
         (ascii "_meta", metaJVal s.metaHits s.meta)]

/-- `jsonSizeBytes(result)` as evaluated inside the handler. -/
def resultBytes (s : TrimState) : Nat := jsonSizeBytes (resultJVal s)

/-- `CAP_BYTES = 70 * 1024`. -/
def CAP_BYTES : Nat := 70 * 1024

/-- `SHRUNK_SNIPPET_CHAR_CAP = 600`. -/
def SHRUNK_SNIPPET_CHAR_CAP : Nat := 600

/-- `MIN_SNIPPET_CHAR_FLOOR = 300`. -/
def MIN_SNIPPET_CHAR_FLOOR : Nat := 300

/-- The stage-1 `while (prText.length > 0 && size > CAP_BYTES)` loop:
cut the prompt-ready text to
`Math.max(Math.floor(prText.length * 0.9), 0)` of its code units and
re-measure.  `Math.floor(len * 0.9)` equals `len * 9 / 10` in natural
division for every attainable length (the double product of an integer
with 0.9 never rounds across an integer boundary at these magnitudes).
`sz u` is the serialized size of the whole result with the prompt text
replaced by `u`. -/
def promptLoop (cap : Nat) (sz : JStr → Nat) (t : JStr) : JStr :=
  if t.length > 0 ∧ sz t > cap then
    promptLoop cap sz (t.take (max (t.length * 9 / 10) 0))
  else t
termination_by t.length
decreasing_by
  simp only [List.length_take]
  rename_i h
  have h1 : t.length * 9 / 10 < t.length :=
    Nat.div_lt_of_lt_mul (by omega)
  omega

/-- Stage 1 of the trimmer: only entered while over budget, and only if
`content.length > 1 && content[1]?.type === "text"`. -/
def trimStage1 (cap : Nat) (s : TrimState) : TrimState :=
  if resultBytes s > cap then
    match s.content with
    | b0 :: .text t :: rest =>
      { s with content := b0 :: .text (promptLoop cap
          (fun u => resultBytes { s with content := b0 :: .text u :: rest }) t)
          :: rest }
    | _ => s
  else s

/-- One stage-2 cap application on a block: a resource block whose text
exceeds `capChars` code units is cut to `capChars`; anything else is
untouched. -/
def capBlock (capChars : Nat) (b : Block) : Block :=
  match b with
  | .resource u m t =>
    if t.length > capChars then .resource u m (t.take capChars) else .resource u m t
  | b => b

/-- One stage-2 pass
(`for (let i = 0; i < content.length && size > CAP_BYTES; i++)`):
process blocks left to right, re-measuring, stopping as soon as the
size fits.  `pre` holds the already-visited prefix. -/
def capLoop (cap capChars : Nat) (mh : List MetaHit) (m : MetaFields) :
    List Block → List Block → List Block
  | pre, [] => pre
  | pre, b :: rest =>
    if resultBytes ⟨pre ++ b :: rest, mh, m⟩ > cap then
      capLoop cap capChars mh m (pre ++ [capBlock capChars b]) rest
    else pre ++ b :: rest

/-- Stage 2 of the trimmer: a first pass capping every resource text to
`SHRUNK_SNIPPET_CHAR_CAP`, then a second pass capping to
`MIN_SNIPPET_CHAR_FLOOR`, both guarded per-iteration by the budget. -/
def trimStage2 (cap : Nat) (s : TrimState) : TrimState :=
  if resultBytes s > cap then
    { s with content := (capLoop cap MIN_SNIPPET_CHAR_FLOOR s.metaHits s.meta []
        (capLoop cap SHRUNK_SNIPPET_CHAR_CAP s.metaHits s.meta [] s.content)) }
  else s

/-- The stage-3
`for (let i = hits.length - 1; i >= 0 && size > CAP_BYTES; i--)` loop:
iterate hit positions from the last backward; the block at
`i + 2` (skipping summary and prompt-ready), when it is a resource
block, gets its text replaced by the empty string, re-measuring after
each replacement.  The argument `i + 1` runs the loop body at hit
position `i`. -/
def zeroLoop (cap : Nat) (mh : List MetaHit) (m : MetaFields) :
    Nat → List Block → List Block
  | 0, content => content
  | i + 1, content =>
    if resultBytes ⟨content, mh, m⟩ > cap then
      zeroLoop cap mh m i
        (match content.get? (i + 2) with
         | some (.resource u mm _) => content.set (i + 2) (.resource u mm [])
         | _ => content)
    else content

/-- Stage 3 of the trimmer; the loop bound `hits.length` equals
`metaHits.length` at the point the handler runs it. -/
def trimStage3 (cap : Nat) (s : TrimState) : TrimState :=
  if resultBytes s > cap then
    { s with content := zeroLoop cap s.metaHits s.meta s.metaHits.length s.content }
  else s

/-- The stage-4
`while (result.content.length > 1 && size > CAP_BYTES)` loop:
pop the last content block and the last `metaHits` entry (a pop on an
already-empty `metaHits` is a no-op) and re-measure. -/
def dropLoop (cap : Nat) (m : MetaFields) (content : List Block)
    (mh : List MetaHit) : List Block × List MetaHit :=
  if content.length > 1 ∧ resultBytes ⟨content, mh, m⟩ > cap then
    dropLoop cap m content.dropLast mh.dropLast
  else (content, mh)
termination_by content.length
decreasing_by
  rename_i h
  rw [List.length_dropLast]
  omega

/-- Stage 4 of the trimmer, returning the new state and whether the
warning log entry is emitted: when entered, it runs the drop loop and
then unconditionally sets `_meta.complete` to `false` and logs the
trimming warning. -/
def trimStage4 (cap : Nat) (s : TrimState) : TrimState × Bool :=
  if resultBytes s > cap then
    (⟨(dropLoop cap s.meta s.content s.metaHits).1,
      (dropLoop cap s.meta s.content s.metaHits).2,
      { s.meta with complete := some false }⟩, true)
  else (s, false)

/-- The whole trimming procedure at byte budget `cap`: the four stages
in order, each self-guarded by the current serialized size. -/
def trimPayloadAt (cap : Nat) (s : TrimState) : TrimState :=
  (trimStage4 cap (trimStage3 cap (trimStage2 cap (trimStage1 cap s)))).1

/-- The trimming procedure at the handler's budget `CAP_BYTES`. -/
def trimPayload (s : TrimState) : TrimState := trimPayloadAt CAP_BYTES s

/-- A `_meta` record with every optional field `undefined` and zero
latency, as the handler's `result` starts out. -/
def cexMeta : MetaFields := {}

/-- The same `_meta` record after `complete` has been set to `false`. -/
def cexMetaF : MetaFields := { complete := some false }

/-- A minimal `_meta.hits` record: empty strings and the number 1 in
every slot. -/
def hit0 : MetaHit := ⟨[], [], [], 1, 1, 1⟩

/-- 72000 ASCII `a` code units. -/
def bigT : JStr := List.replicate 72000 97

/-- 71600 ASCII `a` code units. -/
def bigU : JStr := List.replicate 71600 97

/-- 299 ASCII `a` code units followed by one valid surrogate pair
(U+1F600 as the UTF-16 units 0xD83D 0xDE00): 301 code units in all,
serializing to 303 bytes; cutting it to 300 units strands the high
surrogate, which `JSON.stringify` escapes as the 6 bytes `\uD83D`. -/
def trickyT : JStr := List.replicate 299 97 ++ [55357, 56832]

/-- A response whose only content block is a 72000-character text
block, with `_meta.complete` still `undefined`: over budget, so stage
4 runs, drops nothing (one block), and adds the 17-byte
`"complete":false` field. -/
def stage4CexState : TrimState := ⟨[Block.text bigT], [], cexMeta⟩

/-- A response whose third block is a resource with a 71600-character
uri and the surrogate-pair-tailed text `trickyT`: stage 2's floor pass
cuts the text to 300 units and the stranded surrogate grows the
serialization by 2 bytes. -/
def stage2CexState : TrimState :=
  ⟨[Block.text [], Block.text [], Block.resource bigU [] trickyT], [hit0], cexMeta⟩

/-- 71421 ASCII `a` code units, sized so that after stage 4 drops one
block the remainder serializes to exactly `CAP_BYTES` bytes — within
budget, but only until the `complete:false` field is added. -/
def idemU1 : JStr := List.replicate 71421 97

/-- 100 ASCII `a` code units. -/
def idemU2 : JStr := List.replicate 100 97

/-- A response on which one run of the trimmer drops one block,
leaving a state whose size is pushed back over budget by the 17-byte
`complete:false` field, so a second run drops another block. -/
def idemCexState : TrimState :=
  ⟨[Block.text [], Block.text [], Block.resource idemU1 [] [],
    Block.resource idemU2 [] []], [hit0, hit0], cexMeta⟩

/-- A code unit that is neither kind of surrogate. -/
def nonSurrogate (c : Nat) : Prop :=
  isHighSurrogate c = false ∧ isLowSurrogate c = false

/-- A string free of surrogate code units. -/
def surrogateFree (t : JStr) : Prop := ∀ c ∈ t, nonSurrogate c

/-- Blockwise size comparison used for monotonicity arguments. -/
def blockLE (a b : Block) : Prop :=
  jsonSizeBytes (blockJVal b) ≤ jsonSizeBytes (blockJVal a)

/-- The text-blanking that stage 3 applies to a resource block. -/
def blankResource : Block → Block
  | .resource u m _ => .resource u m []
  | b => b

/-- The text of a resource block is surrogate-free (trivially satisfied
by text blocks). -/
def blockTextSF : Block → Prop
  | .resource _ _ t => surrogateFree t
  | _ => True

/-- Resource texts of a block are no longer than `n` code units. -/
def resourceTextShort (n : Nat) (b : Block) : Prop :=
  ∀ u mi t, b = Block.resource u mi t → t.length ≤ n

theorem one_le_effConcurrency (c : Option Int) : 1 ≤ effConcurrency c := by
  unfold effConcurrency
  have h : (1 : Int) ≤ max 1 (c.getD 8) := le_max_left _ _
  omega

theorem countSome_replicate_none {α : Type} (n : Nat) :
    countSome (List.replicate n (none : Option α)) = 0 := by
  induction n with
  | zero => rfl
  | succ n ih => simpa [List.replicate_succ, countSome] using ih

theorem getD_replicate_none {α : Type} (n i : Nat) :
    (List.replicate n (none : Option α)).getD i none = none := by
  induction n generalizing i with
  | zero => simp [List.getD]
  | succ n ih =>
    cases i with
    | zero => simp [List.replicate_succ, List.getD]
    | succ i => simp [List.replicate_succ, List.getD, ih i]

theorem getD_set_self {α : Type} (l : List (Option α)) (i : Nat) (a : Option α)
    (h : i < l.length) : (l.set i a).getD i none = a := by
  induction l generalizing i with
  | nil => simp at h
  | cons x xs ih =>
    cases i with
    | zero => simp [List.set, List.getD]
    | succ i =>
      simp only [List.set, List.getD_cons_succ]
      exact ih i (by simpa using h)

theorem getD_set_ne {α : Type} (l : List (Option α)) (i j : Nat) (a : Option α)
    (h : j ≠ i) : (l.set i a).getD j none = l.getD j none := by
  induction l generalizing i j with
  | nil => simp [List.set]
  | cons x xs ih =>
    cases i with
    | zero =>
      cases j with
      | zero => exact absurd rfl h
      | succ j => simp [List.set, List.getD]
    | succ i =>
      cases j with
      | zero => simp [List.set, List.getD]
      | succ j =>
        simp only [List.set, List.getD_cons_succ]
        exact ih i j (by omega)

theorem countSome_set_some {α : Type} (l : List (Option α)) (i : Nat) (a : α)
    (hi : i < l.length) (h : l.getD i none = none) :
    countSome (l.set i (some a)) = countSome l + 1 := by
  induction l generalizing i with
  | nil => simp at hi
  | cons x xs ih =>
    cases i with
    | zero =>
      simp only [List.getD_cons_zero] at h
      subst h
      simp [List.set, countSome]
    | succ i =>
      simp only [List.getD_cons_succ] at h
      have hlen : i < xs.length := by simpa using hi
      cases x with
      | none => simp [List.set, countSome, ih i hlen h]
      | some b => simp [List.set, countSome, ih i hlen h]

theorem getD_mem {α : Type} [Inhabited α] (l : List α) (j : Nat) (d : α)
    (h : j < l.length) : l.getD j d ∈ l := by
  rw [List.getD_eq_getElem l d h]
  exact List.getElem_mem h

theorem stepPool_ne_nil {R : Type} (N : Nat) (outcome : Nat → MapperOutcome R)
    (s : PoolState R) (pick : Nat) (h : s.active ≠ []) :
    stepPool N outcome s pick =
      (if s.currentIndex < N then
        { currentIndex := s.currentIndex + 1
          active := (s.active.erase (s.active.getD (pick % s.active.length) 0))
            ++ [s.currentIndex]
          results := s.results.set (s.active.getD (pick % s.active.length) 0)
              (some (record (s.active.getD (pick % s.active.length) 0)
                (outcome (s.active.getD (pick % s.active.length) 0))))
          started := s.started ++ [s.currentIndex] }
      else
        { s with
          active := s.active.erase (s.active.getD (pick % s.active.length) 0)
          results := s.results.set (s.active.getD (pick % s.active.length) 0)
              (some (record (s.active.getD (pick % s.active.length) 0)
                (outcome (s.active.getD (pick % s.active.length) 0)))) }) := by
  unfold stepPool
  rw [if_neg (by simp [List.isEmpty_iff, h])]

theorem stepPool_nil {R : Type} (N : Nat) (outcome : Nat → MapperOutcome R)
    (s : PoolState R) (pick : Nat) (h : s.active = []) :
    stepPool N outcome s pick = s := by
  unfold stepPool
  rw [if_pos (by simp [List.isEmpty_iff, h])]

theorem stepPool_inv {R : Type} {N maxC : Nat} {outcome : Nat → MapperOutcome R}
    {s : PoolState R} (inv : PoolInv N maxC outcome s) (pick : Nat) :
    PoolInv N maxC outcome (stepPool N outcome s pick) := by
  by_cases hnil : s.active = []
  · rw [stepPool_nil N outcome s pick hnil]; exact inv
  · have hlen : 0 < s.active.length := List.length_pos.mpr hnil
    have hmod : pick % s.active.length < s.active.length := Nat.mod_lt _ hlen
    set i := s.active.getD (pick % s.active.length) 0 with hi_def
    have hi_mem : i ∈ s.active := getD_mem _ _ _ hmod
    have hi_lt_curr : i < s.currentIndex := inv.active_lt i hi_mem
    have hi_lt_N : i < N := lt_of_lt_of_le hi_lt_curr inv.curr_le
    have hi_res : s.results.getD i none = none :=
      (inv.pending i hi_lt_N).mpr (Or.inr hi_mem)
    have hi_len : i < s.results.length := by rw [inv.results_len]; exact hi_lt_N
    have herase_len : (s.active.erase i).length = s.active.length - 1 :=
      List.length_erase_of_mem hi_mem
    have herase_mem : ∀ j, j ∈ s.active.erase i ↔ j ≠ i ∧ j ∈ s.active := fun j =>
      inv.active_nodup.mem_erase_iff
    have herase_nodup : (s.active.erase i).Nodup := inv.active_nodup.erase i
    have hcount : countSome (s.results.set i (some (record i (outcome i))))
        = countSome s.results + 1 := countSome_set_some _ _ _ hi_len hi_res
    have hpend2 : ∀ k, k < N →
        ((s.results.set i (some (record i (outcome i)))).getD k none = none ↔
          (k ≠ i ∧ (s.currentIndex ≤ k ∨ k ∈ s.active))) := by
      intro k hk
      by_cases hki : k = i
      · subst hki
        rw [getD_set_self _ _ _ hi_len]
        simp
      · rw [getD_set_ne _ _ _ _ hki]
        rw [inv.pending k hk]
        simp [hki]
    have hrec2 : ∀ k r, (s.results.set i (some (record i (outcome i)))).getD k none
        = some r → r = record k (outcome k) := by
      intro k r hr
      by_cases hki : k = i
      · subst hki
        rw [getD_set_self _ _ _ hi_len] at hr
        exact (Option.some_inj.mp hr).symm
      · rw [getD_set_ne _ _ _ _ hki] at hr
        exact inv.recorded k r hr
    rw [stepPool_ne_nil N outcome s pick hnil, ← hi_def]
    by_cases hcur : s.currentIndex < N
    · rw [if_pos hcur]
      have hc_notmem : s.currentIndex ∉ s.active.erase i := by
        intro hc
        have := inv.active_lt _ ((herase_mem _).mp hc).2
        omega
      refine ⟨?_, ?_, ?_, ?_, ?_, ?_, ?_, ?_, ?_, ?_⟩ <;> dsimp only
      · simpa using inv.results_len
      · omega
      · simp only [List.length_append, List.length_singleton, herase_len]
        have := inv.active_bound
        omega
      · simp only [List.nodup_append]
        refine ⟨herase_nodup, List.nodup_singleton _, ?_⟩
        intro a ha hb
        rw [List.mem_singleton] at hb
        subst hb
        exact hc_notmem ha
      · intro j hj
        rcases List.mem_append.mp hj with hj | hj
        · have := inv.active_lt j ((herase_mem j).mp hj).2
          omega
        · rw [List.mem_singleton] at hj
          omega
      · simp only [hcount, List.length_append, List.length_singleton, herase_len]
        have := inv.count_eq
        omega
      · intro k hk
        rw [hpend2 k hk]
        constructor
        · rintro ⟨hki, hrest⟩
          rcases hrest with hck | hka
          · rcases Nat.eq_or_lt_of_le hck with hck | hck
            · right
              rw [List.mem_append, List.mem_singleton]
              exact Or.inr hck.symm
            · exact Or.inl hck
          · right
            rw [List.mem_append]
            exact Or.inl ((herase_mem k).mpr ⟨hki, hka⟩)
        · rintro (hck | hka)
          · constructor
            · omega
            · exact Or.inl (by omega)
          · rw [List.mem_append, List.mem_singleton] at hka
            rcases hka with hka | hka
            · rcases (herase_mem k).mp hka with ⟨hki, hkm⟩
              exact ⟨hki, Or.inr hkm⟩
            · subst hka
              exact ⟨by omega, Or.inl (by omega)⟩
      · exact hrec2
      · simp only [inv.started_eq]
        exact (List.range_succ s.currentIndex).symm
      · intro hC
        exact absurd hC (by simp)
    · rw [if_neg hcur]
      have hcurN : s.currentIndex = N := by
        have := inv.curr_le
        omega
      refine ⟨?_, ?_, ?_, ?_, ?_, ?_, ?_, ?_, ?_, ?_⟩ <;> dsimp only
      · simpa using inv.results_len
      · exact inv.curr_le
      · simp only [herase_len]
        have := inv.active_bound
        omega
      · exact herase_nodup
      · intro j hj
        exact inv.active_lt j ((herase_mem j).mp hj).2
      · simp only [hcount, herase_len]
        have := inv.count_eq
        omega
      · intro k hk
        rw [hpend2 k hk]
        constructor
        · rintro ⟨hki, hrest⟩
          rcases hrest with hck | hka
          · exact Or.inl hck
          · exact Or.inr ((herase_mem k).mpr ⟨hki, hka⟩)
        · rintro (hck | hka)
          · exact ⟨by omega, Or.inl hck⟩
          · rcases (herase_mem k).mp hka with ⟨hki, hkm⟩
            exact ⟨hki, Or.inr hkm⟩
      · exact hrec2
      · exact inv.started_eq
      · intro _
        exact hcurN

theorem stepPool_count {R : Type} {N maxC : Nat} {outcome : Nat → MapperOutcome R}
    {s : PoolState R} (inv : PoolInv N maxC outcome s) (pick : Nat)
    (h : countSome s.results < N) :
    countSome (stepPool N outcome s pick).results = countSome s.results + 1 := by
  have hnil : s.active ≠ [] := by
    intro hA
    have h1 := inv.active_empty hA
    have h2 := inv.count_eq
    rw [hA] at h2
    simp at h2
    omega
  have hlen : 0 < s.active.length := List.length_pos.mpr hnil
  have hmod : pick % s.active.length < s.active.length := Nat.mod_lt _ hlen
  set i := s.active.getD (pick % s.active.length) 0 with hi_def
  have hi_mem : i ∈ s.active := getD_mem _ _ _ hmod
  have hi_lt_curr : i < s.currentIndex := inv.active_lt i hi_mem
  have hi_lt_N : i < N := lt_of_lt_of_le hi_lt_curr inv.curr_le
  have hi_res : s.results.getD i none = none :=
    (inv.pending i hi_lt_N).mpr (Or.inr hi_mem)
  have hi_len : i < s.results.length := by rw [inv.results_len]; exact hi_lt_N
  rw [stepPool_ne_nil N outcome s pick hnil, ← hi_def]
  by_cases hcur : s.currentIndex < N
  · rw [if_pos hcur]
    exact countSome_set_some _ _ _ hi_len hi_res
  · rw [if_neg hcur]
    exact countSome_set_some _ _ _ hi_len hi_res

theorem countSome_le_of_inv {R : Type} {N maxC : Nat} {outcome : Nat → MapperOutcome R}
    {s : PoolState R} (inv : PoolInv N maxC outcome s) : countSome s.results ≤ N := by
  have h1 := inv.count_eq
  have h2 := inv.curr_le
  omega

theorem stepPool_done {R : Type} {N maxC : Nat} {outcome : Nat → MapperOutcome R}
    {s : PoolState R} (inv : PoolInv N maxC outcome s) (pick : Nat)
    (h : countSome s.results = N) : stepPool N outcome s pick = s := by
  have hA : s.active = [] := by
    have h1 := inv.count_eq
    have h2 := inv.curr_le
    have : s.active.length = 0 := by omega
    exact List.length_eq_zero.mp this
  exact stepPool_nil N outcome s pick hA

theorem runPool_cons {R : Type} (N : Nat) (outcome : Nat → MapperOutcome R)
    (s : PoolState R) (p : Nat) (rest : List Nat) :
    runPool N outcome s (p :: rest) = runPool N outcome (stepPool N outcome s p) rest := rfl

theorem runPool_inv {R : Type} {N maxC : Nat} {outcome : Nat → MapperOutcome R}
    {s : PoolState R} (inv : PoolInv N maxC outcome s) (sched : List Nat) :
    PoolInv N maxC outcome (runPool N outcome s sched) := by
  induction sched generalizing s with
  | nil => exact inv
  | cons p rest ih =>
    rw [runPool_cons]
    exact ih (stepPool_inv inv p)

theorem runPool_count {R : Type} {N maxC : Nat} {outcome : Nat → MapperOutcome R}
    {s : PoolState R} (inv : PoolInv N maxC outcome s) (sched : List Nat) :
    countSome (runPool N outcome s sched).results
      = min (countSome s.results + sched.length) N := by
  induction sched generalizing s with
  | nil =>
    have := countSome_le_of_inv inv
    simp [runPool]
    omega
  | cons p rest ih =>
    rw [runPool_cons]
    by_cases h : countSome s.results < N
    · rw [ih (stepPool_inv inv p), stepPool_count inv p h]
      simp only [List.length_cons]
      omega
    · have heq : countSome s.results = N := by
        have := countSome_le_of_inv inv
        omega
      rw [stepPool_done inv p heq, ih inv]
      simp only [List.length_cons]
      omega

theorem initPool_inv {R : Type} (N maxC : Nat) (outcome : Nat → MapperOutcome R)
    (hM : 1 ≤ maxC) : PoolInv N maxC outcome (initPool R N maxC) := by
  refine ⟨?_, ?_, ?_, ?_, ?_, ?_, ?_, ?_, ?_, ?_⟩ <;> dsimp only [initPool]
  · exact List.length_replicate _ _
  · exact Nat.min_le_right _ _
  · simp
  · exact List.nodup_range _
  · intro i hi
    exact List.mem_range.mp hi
  · simp [countSome_replicate_none]
  · intro i hi
    rw [getD_replicate_none]
    simp only [List.mem_range, true_iff]
    omega
  · intro i r hr
    rw [getD_replicate_none] at hr
    exact absurd hr (by simp)
  · intro h
    have : min maxC N = 0 := by
      simpa using congrArg List.length h
    omega

theorem runPool_final {R : Type} (N maxC : Nat) (outcome : Nat → MapperOutcome R)
    (sched : List Nat) (hM : 1 ≤ maxC) (hlen : N ≤ sched.length) :
    (runPool N outcome (initPool R N maxC) sched).results.length = N ∧
    (runPool N outcome (initPool R N maxC) sched).currentIndex = N ∧
    (runPool N outcome (initPool R N maxC) sched).active = [] ∧
    (runPool N outcome (initPool R N maxC) sched).started = List.range N ∧
    ∀ i, i < N → (runPool N outcome (initPool R N maxC) sched).results.getD i none
      = some (record i (outcome i)) := by
  have inv0 := initPool_inv (R := R) N maxC outcome hM
  have invF := runPool_inv inv0 sched
  have hcount := runPool_count inv0 sched
  have hc0 : countSome (initPool R N maxC).results = 0 := by
    dsimp only [initPool]
    exact countSome_replicate_none N
  rw [hc0] at hcount
  have hcN : countSome (runPool N outcome (initPool R N maxC) sched).results = N := by
    omega
  have hactive : (runPool N outcome (initPool R N maxC) sched).active = [] := by
    have h1 := invF.count_eq
    have h2 := invF.curr_le
    have : (runPool N outcome (initPool R N maxC) sched).active.length = 0 := by omega
    exact List.length_eq_zero.mp this
  have hcurr : (runPool N outcome (initPool R N maxC) sched).currentIndex = N := by
    have h1 := invF.count_eq
    rw [hactive] at h1
    simp at h1
    omega
  refine ⟨invF.results_len, hcurr, hactive, ?_, ?_⟩
  · rw [invF.started_eq, hcurr]
  · intro i hi
    have hpend := invF.pending i hi
    rw [hcurr, hactive] at hpend
    have hne : (runPool N outcome (initPool R N maxC) sched).results.getD i none ≠ none := by
      intro hcontr
      rw [hpend] at hcontr
      simp at hcontr
      omega
    cases hres : (runPool N outcome (initPool R N maxC) sched).results.getD i none with
    | none => exact absurd hres hne
    | some r =>
      rw [invF.recorded i r hres]

/-- C1: for every input length `N`, every mapper behavior and every
concurrency option, `mapWithConcurrency` — run under any completion
order that delivers all `N` completions — returns a results array of
exactly `N` entries whose entry at position `i` satisfies
`result[i].index === i`, and the mapper is invoked exactly once per
input index (the invocation list is exactly `[0, …, N-1]`). -/
theorem mapWithConcurrency_preserves_order {R : Type} (N : Nat)
    (outcome : Nat → MapperOutcome R) (maxConcurrent : Option Int)
    (sched : List Nat) (hsched : N ≤ sched.length) :
    (mapWithConcurrency N outcome maxConcurrent sched).length = N ∧
    (∀ i, i < N → ∃ r, (mapWithConcurrency N outcome maxConcurrent sched).getD i none
        = some r ∧ r.index = i) ∧
    (runPool N outcome (initPool R N (effConcurrency maxConcurrent)) sched).started
      = List.range N ∧
    (∀ i, i < N →
      (runPool N outcome (initPool R N (effConcurrency maxConcurrent)) sched).started.count i
        = 1) := by
  obtain ⟨hL, _, _, hS, hA⟩ :=
    runPool_final (R := R) N (effConcurrency maxConcurrent) outcome sched
      (one_le_effConcurrency maxConcurrent) hsched
  refine ⟨hL, ?_, hS, ?_⟩
  · intro i hi
    refine ⟨record i (outcome i), hA i hi, ?_⟩
    cases outcome i <;> rfl
  · intro i hi
    rw [hS]
    exact List.count_eq_one_of_mem (List.nodup_range N) (List.mem_range.mpr hi)

/-- Witness for C1 at `N = 2`, a concrete mapper behavior, limit 1,
and the completion schedule `[0, 0]`. -/
theorem mapWithConcurrency_preserves_order_witness :
    2 ≤ ([0, 0] : List Nat).length ∧
    ((mapWithConcurrency 2 (fun i => MapperOutcome.resolve (i + 10)) (some 1) [0, 0]).length
        = 2 ∧
      (∀ i, i < 2 → ∃ r,
        (mapWithConcurrency 2 (fun i => MapperOutcome.resolve (i + 10)) (some 1)
          [0, 0]).getD i none = some r ∧ r.index = i) ∧
      (runPool 2 (fun i => MapperOutcome.resolve (i + 10))
        (initPool Nat 2 (effConcurrency (some 1))) [0, 0]).started = List.range 2 ∧
      (∀ i, i < 2 → (runPool 2 (fun i => MapperOutcome.resolve (i + 10))
        (initPool Nat 2 (effConcurrency (some 1))) [0, 0]).started.count i = 1)) :=
  ⟨by decide,
   mapWithConcurrency_preserves_order 2 (fun i => MapperOutcome.resolve (i + 10))
     (some 1) [0, 0] (by decide)⟩

/-- C2: along any completion schedule (hence at any instant of the
run), the number of in-flight mapper invocations never exceeds
`Math.max(1, C)`, and a configured limit `z ≤ 0` (zero or negative) is
floored to 1. -/
theorem mapWithConcurrency_respects_limit {R : Type} (N : Nat)
    (outcome : Nat → MapperOutcome R) (maxConcurrent : Option Int)
    (sched : List Nat) (z : Int) (hz : z ≤ 0) :
    (runPool N outcome (initPool R N (effConcurrency maxConcurrent)) sched).active.length
      ≤ effConcurrency maxConcurrent ∧
    effConcurrency (some z) = 1 := by
  constructor
  · exact (runPool_inv (initPool_inv N (effConcurrency maxConcurrent) outcome
      (one_le_effConcurrency maxConcurrent)) sched).active_bound
  · unfold effConcurrency
    simp only [Option.getD_some]
    have h1 : max 1 z = 1 := max_eq_left (hz.trans (by norm_num))
    rw [h1]
    rfl

/-- Witness for C2 at a concrete run (limit 2, five items) and the
concrete non-positive limit `-3`. -/
theorem mapWithConcurrency_respects_limit_witness :
    ((-3 : Int) ≤ 0) ∧
    ((runPool 5 (fun i => MapperOutcome.resolve i)
        (initPool Nat 5 (effConcurrency (some 2))) [1, 0, 0, 1, 0]).active.length
      ≤ effConcurrency (some 2) ∧
    effConcurrency (some (-3)) = 1) :=
  ⟨by decide,
   mapWithConcurrency_respects_limit 5 (fun i => MapperOutcome.resolve i) (some 2)
     [1, 0, 0, 1, 0] (-3) (by decide)⟩

/-- C9: when the mapper fails at some positions — whether by rejecting
or by throwing synchronously, the two being recorded identically —
`mapWithConcurrency` stores `{success: false, error}` with the thrown
error preserved at exactly those positions, every other position
completes with `{success: true, data}`, and every position still
receives a result (no individual failure aborts the call). -/
theorem mapWithConcurrency_isolates_failures {R : Type} (N : Nat)
    (outcome : Nat → MapperOutcome R) (maxConcurrent : Option Int)
    (sched : List Nat) (hsched : N ≤ sched.length) :
    (∀ i, i < N → (mapWithConcurrency N outcome maxConcurrent sched).getD i none
        = some (record i (outcome i))) ∧
    (∀ i e, i < N → (outcome i = .reject e ∨ outcome i = .throwSync e) →
      (mapWithConcurrency N outcome maxConcurrent sched).getD i none
        = some ⟨i, false, none, some e⟩) ∧
    (∀ i d, i < N → outcome i = .resolve d →
      (mapWithConcurrency N outcome maxConcurrent sched).getD i none
        = some ⟨i, true, some d, none⟩) ∧
    (∀ i e, record (R := R) i (.throwSync e) = record i (.reject e)) := by
  obtain ⟨_, _, _, _, hA⟩ :=
    runPool_final (R := R) N (effConcurrency maxConcurrent) outcome sched
      (one_le_effConcurrency maxConcurrent) hsched
  refine ⟨hA, ?_, ?_, fun i e => rfl⟩
  · intro i e hi ho
    have := hA i hi
    rcases ho with ho | ho <;> rw [ho] at this <;> exact this
  · intro i d hi ho
    have := hA i hi
    rw [ho] at this
    exact this

/-- Witness for C9: three items of which the middle one throws; the
failing position records the error, the others succeed. -/
theorem mapWithConcurrency_isolates_failures_witness :
    3 ≤ ([0, 0, 0] : List Nat).length ∧
    ((∀ i, i < 3 →
      (mapWithConcurrency 3
        (fun i => if i = 1 then MapperOutcome.throwSync ⟨"Error", "boom"⟩
          else MapperOutcome.resolve i) (some 2) [0, 0, 0]).getD i none
        = some (record i (if i = 1 then MapperOutcome.throwSync ⟨"Error", "boom"⟩
          else MapperOutcome.resolve i))) ∧
    (∀ i e, i < 3 →
      ((if i = 1 then MapperOutcome.throwSync ⟨"Error", "boom"⟩
          else MapperOutcome.resolve i) = .reject e ∨
        (if i = 1 then MapperOutcome.throwSync ⟨"Error", "boom"⟩
          else MapperOutcome.resolve i) = .throwSync e) →
      (mapWithConcurrency 3
        (fun i => if i = 1 then MapperOutcome.throwSync ⟨"Error", "boom"⟩
          else MapperOutcome.resolve i) (some 2) [0, 0, 0]).getD i none
        = some ⟨i, false, none, some e⟩) ∧
    (∀ i d, i < 3 →
      (if i = 1 then MapperOutcome.throwSync ⟨"Error", "boom"⟩
          else MapperOutcome.resolve i) = .resolve d →
      (mapWithConcurrency 3
        (fun i => if i = 1 then MapperOutcome.throwSync ⟨"Error", "boom"⟩
          else MapperOutcome.resolve i) (some 2) [0, 0, 0]).getD i none
        = some ⟨i, true, some d, none⟩) ∧
    (∀ i e, record (R := Nat) i (.throwSync e) = record i (.reject e))) :=
  ⟨by decide,
   mapWithConcurrency_isolates_failures 3
     (fun i => if i = 1 then MapperOutcome.throwSync ⟨"Error", "boom"⟩
       else MapperOutcome.resolve i) (some 2) [0, 0, 0] (by decide)⟩

theorem attemptLoop_ok (att : Nat → Except JsError FileSliceResponse)
    (ra t : Nat) (slice : FileSliceResponse) (h : att t = .ok slice) :
    attemptLoop att ra t = ⟨.ok slice, 1, []⟩ := by
  rw [attemptLoop, h]

theorem attemptLoop_abort (att : Nat → Except JsError FileSliceResponse)
    (ra t : Nat) (e : JsError) (h : att t = .error e)
    (hname : e.name = "AbortError") :
    attemptLoop att ra t = ⟨.error e, 1, []⟩ := by
  rw [attemptLoop, h]
  simp [hname]

theorem attemptLoop_retry (att : Nat → Except JsError FileSliceResponse)
    (ra t : Nat) (e : JsError) (h : att t = .error e)
    (hname : e.name ≠ "AbortError") (ht : t < ra) :
    attemptLoop att ra t =
      ⟨(attemptLoop att ra (t + 1)).outcome,
        (attemptLoop att ra (t + 1)).attemptsMade + 1,
        (2 ^ t * 100) :: (attemptLoop att ra (t + 1)).delaysMs⟩ := by
  rw [attemptLoop, h]
  simp [hname, ht]

theorem attemptLoop_exhausted (att : Nat → Except JsError FileSliceResponse)
    (ra t : Nat) (e : JsError) (h : att t = .error e)
    (hname : e.name ≠ "AbortError") (ht : ¬ t < ra) :
    attemptLoop att ra t = ⟨.error e, 1, []⟩ := by
  rw [attemptLoop, h]
  simp [hname, ht]

theorem range_succ_map_pow (t d : Nat) :
    (List.range (d + 1)).map (fun a => 2 ^ (t + a) * 100)
      = (2 ^ t * 100) :: (List.range d).map (fun a => 2 ^ (t + 1 + a) * 100) := by
  rw [List.range_succ_eq_map, List.map_cons, List.map_map]
  refine congrArg₂ _ (by simp) ?_
  refine List.map_congr_left ?_
  intro a _
  simp only [Function.comp_apply]
  have h : t + a.succ = t + 1 + a := by omega
  rw [h]

theorem attemptLoop_succeeds (att : Nat → Except JsError FileSliceResponse)
    (ra : Nat) (slice : FileSliceResponse) :
    ∀ d t, (∀ a, t ≤ a → a < t + d → ∃ e, att a = .error e ∧ e.name ≠ "AbortError") →
    att (t + d) = .ok slice → t + d ≤ ra →
    attemptLoop att ra t
      = ⟨.ok slice, d + 1, (List.range d).map (fun a => 2 ^ (t + a) * 100)⟩ := by
  intro d
  induction d with
  | zero =>
    intro t _ hok _
    simpa using attemptLoop_ok att ra t slice (by simpa using hok)
  | succ d ih =>
    intro t hfail hok hle
    obtain ⟨e, hatt, hname⟩ := hfail t (le_refl t) (by omega)
    rw [attemptLoop_retry att ra t e hatt hname (by omega)]
    have hrec := ih (t + 1) (fun a ha1 ha2 => hfail a (by omega) (by omega))
      (by rw [show t + 1 + d = t + (d + 1) by omega]; exact hok) (by omega)
    rw [hrec, range_succ_map_pow]

theorem attemptLoop_all_fail (att : Nat → Except JsError FileSliceResponse)
    (ra : Nat) (err : Nat → JsError) :
    ∀ d t, t + d = ra →
    (∀ a, t ≤ a → a ≤ ra → att a = .error (err a) ∧ (err a).name ≠ "AbortError") →
    attemptLoop att ra t
      = ⟨.error (err ra), d + 1, (List.range d).map (fun a => 2 ^ (t + a) * 100)⟩ := by
  intro d
  induction d with
  | zero =>
    intro t hra hfail
    obtain ⟨hatt, hname⟩ := hfail t (le_refl t) (by omega)
    have := attemptLoop_exhausted att ra t (err t) hatt hname (by omega)
    rw [this]
    simp only [List.range_zero, List.map_nil]
    rw [show t = ra by omega]
  | succ d ih =>
    intro t hra hfail
    obtain ⟨hatt, hname⟩ := hfail t (le_refl t) (by omega)
    rw [attemptLoop_retry att ra t (err t) hatt hname (by omega)]
    have hrec := ih (t + 1) (by omega) (fun a ha1 ha2 => hfail a (by omega) ha2)
    rw [hrec, range_succ_map_pow]

theorem fetchSnippets_entry (requests : List SnippetFetchRequest)
    (att : Nat → Nat → Except JsError FileSliceResponse)
    (opts : SnippetFetchOptions) (sched : List Nat)
    (hsched : requests.length ≤ sched.length) (i : Nat) (hi : i < requests.length) :
    (fetchSnippetsInParallel requests att opts sched).getD i failurePlaceholder
      = toSnippetResult (some (record i (snippetMapperOutcome opts.signalAborted (att i)
          (requests.getD i default) (opts.retryAttempts.getD 1)))) := by
  unfold fetchSnippetsInParallel mapWithConcurrency
  obtain ⟨hL, _, _, _, hA⟩ :=
    runPool_final (R := FileSliceResponse × SliceMetadata) requests.length
      (effConcurrency (some (opts.maxConcurrent.getD 8)))
      (fun i => snippetMapperOutcome opts.signalAborted (att i)
        (requests.getD i default) (opts.retryAttempts.getD 1))
      sched (one_le_effConcurrency _) hsched
  have hres := hA i hi
  have hlen : i < (runPool requests.length
      (fun i => snippetMapperOutcome opts.signalAborted (att i)
        (requests.getD i default) (opts.retryAttempts.getD 1))
      (initPool (FileSliceResponse × SliceMetadata) requests.length
        (effConcurrency (some (opts.maxConcurrent.getD 8)))) sched).results.length := by
    rw [hL]; exact hi
  have hlen2 : i < ((runPool requests.length
      (fun i => snippetMapperOutcome opts.signalAborted (att i)
        (requests.getD i default) (opts.retryAttempts.getD 1))
      (initPool (FileSliceResponse × SliceMetadata) requests.length
        (effConcurrency (some (opts.maxConcurrent.getD 8)))) sched).results.map
          toSnippetResult).length := by
    rw [List.length_map]; exact hlen
  rw [List.getD_eq_getElem _ _ hlen2, List.getElem_map]
  rw [List.getD_eq_getElem _ _ hlen] at hres
  rw [hres]

/-- Counterexample to C3 as stated: a per-attempt timeout surfaces as
an error named `"AbortError"`, and the catch block rethrows such errors
without retrying (`if (err.name === "AbortError") throw error`).  With
`retryAttempts = 1` — and no externally supplied signal aborted — the
loop makes exactly one attempt and awaits no backoff delay, instead of
the retry with a 100 ms backoff the claim requires. -/
theorem snippetFetch_timeout_not_retried_cex :
    runSnippetAttempts false timeoutAttempt 1
      = ⟨.error ⟨"AbortError", "The operation was aborted"⟩, 1, []⟩ ∧
    ¬ (runSnippetAttempts false timeoutAttempt 1).attemptsMade = 2 ∧
    (runSnippetAttempts false timeoutAttempt 1).delaysMs ≠ [100] := by
  have h := attemptLoop_abort timeoutAttempt 1 0
    ⟨"AbortError", "The operation was aborted"⟩ rfl rfl
  have h2 : runSnippetAttempts false timeoutAttempt 1
      = ⟨.error ⟨"AbortError", "The operation was aborted"⟩, 1, []⟩ := h
  refine ⟨h2, ?_, ?_⟩ <;> rw [h2] <;> simp

/-- C3 (amended): inside `fetchSnippetsInParallel`, every per-request
failure whose error is not named `"AbortError"` is retried up to
`retryAttempts` additional times, each retry preceded by an exponential
backoff delay of `100ms * 2^attemptNumber` (attempt 0 → 100ms, attempt
1 → 200ms, …); a failure named `"AbortError"` — which is what the
per-attempt timeout produces, since the timeout aborts the attempt's
own controller — is terminal and never retried. -/
theorem snippetFetch_retry_backoff (sig : Bool)
    (att : Nat → Except JsError FileSliceResponse) (ra k : Nat)
    (err : Nat → JsError)
    (hfail : ∀ a, a < k → att a = .error (err a))
    (hname : ∀ a, a < k → (err a).name ≠ "AbortError") :
    (∀ slice, att k = .ok slice → k ≤ ra →
      runSnippetAttempts sig att ra
        = ⟨.ok slice, k + 1, (List.range k).map (fun a => 2 ^ a * 100)⟩) ∧
    (k = ra + 1 →
      runSnippetAttempts sig att ra
        = ⟨.error (err ra), ra + 1, (List.range ra).map (fun a => 2 ^ a * 100)⟩) ∧
    (∀ e, att 0 = .error e → e.name = "AbortError" →
      runSnippetAttempts sig att ra = ⟨.error e, 1, []⟩) := by
  refine ⟨?_, ?_, ?_⟩
  · intro slice hok hk
    have h := attemptLoop_succeeds att ra slice k 0
      (fun a ha1 ha2 => ⟨err a, hfail a (by omega), hname a (by omega)⟩)
      (by simpa using hok) (by omega)
    have h2 : runSnippetAttempts sig att ra = attemptLoop att ra 0 := rfl
    rw [h2, h]
    simp
  · intro hk
    have h := attemptLoop_all_fail att ra err ra 0 (by omega)
      (fun a ha1 ha2 => ⟨hfail a (by omega), hname a (by omega)⟩)
    have h2 : runSnippetAttempts sig att ra = attemptLoop att ra 0 := rfl
    rw [h2, h]
    simp
  · intro e hatt he
    exact attemptLoop_abort att ra 0 e hatt he

/-- Witness for the amended C3: one transient failure then success,
with `retryAttempts = 2`: exactly two attempts, one 100 ms backoff. -/
theorem snippetFetch_retry_backoff_witness :
    (∀ a, a < 1 → recoverAttempt a = .error ((fun _ => JsError.mk "FetchError" "boom") a)) ∧
    (∀ a, a < 1 → ((fun _ => JsError.mk "FetchError" "boom") a).name ≠ "AbortError") ∧
    recoverAttempt 1 = .ok ⟨"recovered", none⟩ ∧ 1 ≤ 2 ∧
    runSnippetAttempts false recoverAttempt 2
      = ⟨.ok ⟨"recovered", none⟩, 1 + 1, (List.range 1).map (fun a => 2 ^ a * 100)⟩ ∧
    (List.range 1).map (fun a => 2 ^ a * 100) = [100] := by
  have h1 : ∀ a, a < 1 → recoverAttempt a
      = .error ((fun _ => JsError.mk "FetchError" "boom") a) := by
    intro a ha
    have ha0 : a = 0 := by omega
    subst ha0
    rfl
  have h2 : ∀ a, a < 1 → ((fun _ => JsError.mk "FetchError" "boom") a).name
      ≠ "AbortError" := by
    intro a _
    show (JsError.mk "FetchError" "boom").name ≠ "AbortError"
    decide
  refine ⟨h1, h2, rfl, by omega, ?_, by decide⟩
  exact (snippetFetch_retry_backoff false recoverAttempt 2 1
    (fun _ => JsError.mk "FetchError" "boom") h1 h2).1 ⟨"recovered", none⟩ rfl (by omega)

/-- Counterexample to C4 as stated: with the externally supplied
cancellation signal already aborted before the batch starts, the retry
loop of `fetchSnippetsInParallel` still starts a second attempt after a
100 ms backoff, because the source binds the signal as the unused
`_signal` and never checks it before an attempt; per the claim,
cancellation would be terminal and no new retry attempt would start. -/
theorem snippetFetch_signal_not_checked_cex :
    (runSnippetAttempts true networkFailAttempt 1).attemptsMade = 2 ∧
    (runSnippetAttempts true networkFailAttempt 1).delaysMs = [100] ∧
    (runSnippetAttempts true networkFailAttempt 1).outcome
      = .error ⟨"FetchError", "network failure"⟩ := by
  have h := attemptLoop_all_fail networkFailAttempt 1
    (fun _ => ⟨"FetchError", "network failure"⟩) 1 0 (by omega)
    (fun a _ _ => ⟨rfl, by show (JsError.mk "FetchError" "network failure").name ≠ "AbortError"; decide⟩)
  have h2 : runSnippetAttempts true networkFailAttempt 1
      = ⟨.error ⟨"FetchError", "network failure"⟩, 1 + 1,
          (List.range 1).map (fun a => 2 ^ (0 + a) * 100)⟩ := h
  refine ⟨?_, ?_, ?_⟩ <;> rw [h2] <;> simp [List.range_succ]

/-- C4 (amended): `fetchSnippetsInParallel` ignores the externally
supplied cancellation signal entirely — it is bound as the unused
`_signal`, never checked before an attempt and never passed to the
remote call, so the run is identical whatever the signal's state.
Nevertheless the returned collection contains a result object (possibly
the failure placeholder) for every input position, so cancellation
never changes the shape of the result collection. -/
theorem snippetFetch_signal_ignored_shape (requests : List SnippetFetchRequest)
    (att : Nat → Nat → Except JsError FileSliceResponse)
    (opts : SnippetFetchOptions) (sched : List Nat)
    (_hsched : requests.length ≤ sched.length) :
    (∀ (sig sig' : Bool) (att2 : Nat → Except JsError FileSliceResponse) (ra : Nat),
      runSnippetAttempts sig att2 ra = runSnippetAttempts sig' att2 ra) ∧
    (∀ sig : Bool, fetchSnippetsInParallel requests att
        { opts with signalAborted := sig } sched
      = fetchSnippetsInParallel requests att opts sched) ∧
    (fetchSnippetsInParallel requests att opts sched).length = requests.length ∧
    (∀ i, i < requests.length → ∃ entry : SnippetFetchResult,
      (fetchSnippetsInParallel requests att opts sched).get? i = some entry) := by
  have hlen : (fetchSnippetsInParallel requests att opts sched).length
      = requests.length := by
    unfold fetchSnippetsInParallel mapWithConcurrency
    rw [List.length_map]
    exact (runPool_inv (initPool_inv requests.length _ _
      (one_le_effConcurrency _)) sched).results_len
  refine ⟨fun _ _ _ _ => rfl, fun _ => rfl, hlen, ?_⟩
  intro i hi
  have hil : i < (fetchSnippetsInParallel requests att opts sched).length := by
    rw [hlen]; exact hi
  rw [List.get?_eq_getElem?]
  exact ⟨_, List.getElem?_eq_getElem hil⟩

/-- Witness for the amended C4 at a concrete one-request batch. -/
theorem snippetFetch_signal_ignored_shape_witness :
    ([sampleRequest] : List SnippetFetchRequest).length ≤ ([0] : List Nat).length ∧
    ((∀ (sig sig' : Bool) (att2 : Nat → Except JsError FileSliceResponse) (ra : Nat),
      runSnippetAttempts sig att2 ra = runSnippetAttempts sig' att2 ra) ∧
    (∀ sig : Bool, fetchSnippetsInParallel [sampleRequest] (fun _ => networkFailAttempt)
        { maxConcurrent := none, requestTimeoutMs := none, retryAttempts := some 1,
          signalAborted := sig } [0]
      = fetchSnippetsInParallel [sampleRequest] (fun _ => networkFailAttempt)
        { maxConcurrent := none, requestTimeoutMs := none, retryAttempts := some 1,
          signalAborted := false } [0]) ∧
    (fetchSnippetsInParallel [sampleRequest] (fun _ => networkFailAttempt)
        { maxConcurrent := none, requestTimeoutMs := none, retryAttempts := some 1,
          signalAborted := false } [0]).length = ([sampleRequest] : List SnippetFetchRequest).length ∧
    (∀ i, i < ([sampleRequest] : List SnippetFetchRequest).length →
      ∃ entry : SnippetFetchResult,
      (fetchSnippetsInParallel [sampleRequest] (fun _ => networkFailAttempt)
        { maxConcurrent := none, requestTimeoutMs := none, retryAttempts := some 1,
          signalAborted := false } [0]).get? i = some entry)) := by
  have h := snippetFetch_signal_ignored_shape [sampleRequest] (fun _ => networkFailAttempt)
    { maxConcurrent := none, requestTimeoutMs := none, retryAttempts := some 1,
      signalAborted := false } [0] (by decide)
  exact ⟨by decide, h.1, h.2.1, h.2.2.1, h.2.2.2⟩

theorem toSnippetResult_reject (i : Nat) (e : JsError) :
    toSnippetResult (some (record i (.reject e))) = failurePlaceholder := rfl

theorem toSnippetResult_resolve (i : Nat) (slice : FileSliceResponse)
    (md : SliceMetadata) :
    toSnippetResult (some (record i (.resolve (slice, md))))
      = ⟨slice.content, slice.metaWarnings, some md.actualStartLine,
          some md.actualEndLine, some md.chunkStartLine, some md.chunkEndLine⟩ := rfl

/-- C5 (amended): `fetchSnippetsInParallel` resolves with a mapping
defined at every input position; a position whose retry loop ended in
an error maps to exactly the failure placeholder
`{content: "", warnings: ["Failed to load snippet"]}`; and with a fetch
function that fails the first `k` times **with errors not named
`"AbortError"`** and then succeeds, the position yields the successful
content when `retryAttempts ≥ k` and the failure placeholder when
`retryAttempts < k`. -/
theorem fetchSnippets_placeholder_and_retry (requests : List SnippetFetchRequest)
    (att : Nat → Nat → Except JsError FileSliceResponse)
    (opts : SnippetFetchOptions) (sched : List Nat)
    (hsched : requests.length ≤ sched.length) :
    (fetchSnippetsInParallel requests att opts sched).length = requests.length ∧
    (∀ i, i < requests.length → ∀ e,
      (runSnippetAttempts opts.signalAborted (att i) (opts.retryAttempts.getD 1)).outcome
          = .error e →
      (fetchSnippetsInParallel requests att opts sched).getD i failurePlaceholder
        = failurePlaceholder) ∧
    (∀ i, i < requests.length → ∀ slice,
      (runSnippetAttempts opts.signalAborted (att i) (opts.retryAttempts.getD 1)).outcome
          = .ok slice →
      (fetchSnippetsInParallel requests att opts sched).getD i failurePlaceholder
        = ⟨slice.content, slice.metaWarnings,
            some (fetchStartLine (requests.getD i default)),
            some (fetchEndLine (requests.getD i default)),
            some (requests.getD i default).startLine,
            some (requests.getD i default).endLine⟩) ∧
    (∀ (i k : Nat) (err : Nat → JsError) (slice : FileSliceResponse),
      i < requests.length →
      (∀ a, a < k → att i a = .error (err a) ∧ (err a).name ≠ "AbortError") →
      att i k = .ok slice →
      ((k ≤ opts.retryAttempts.getD 1 →
        ((fetchSnippetsInParallel requests att opts sched).getD i
          failurePlaceholder).content = slice.content) ∧
      (opts.retryAttempts.getD 1 < k →
        (fetchSnippetsInParallel requests att opts sched).getD i failurePlaceholder
          = failurePlaceholder))) := by
  have hlen : (fetchSnippetsInParallel requests att opts sched).length
      = requests.length := by
    unfold fetchSnippetsInParallel mapWithConcurrency
    rw [List.length_map]
    exact (runPool_inv (initPool_inv requests.length _ _
      (one_le_effConcurrency _)) sched).results_len
  have herr : ∀ i, i < requests.length → ∀ e,
      (runSnippetAttempts opts.signalAborted (att i) (opts.retryAttempts.getD 1)).outcome
          = .error e →
      (fetchSnippetsInParallel requests att opts sched).getD i failurePlaceholder
        = failurePlaceholder := by
    intro i hi e he
    rw [fetchSnippets_entry requests att opts sched hsched i hi]
    rw [show snippetMapperOutcome opts.signalAborted (att i) (requests.getD i default)
        (opts.retryAttempts.getD 1) = .reject e by
      unfold snippetMapperOutcome
      rw [he]]
    exact toSnippetResult_reject i e
  have hok : ∀ i, i < requests.length → ∀ slice,
      (runSnippetAttempts opts.signalAborted (att i) (opts.retryAttempts.getD 1)).outcome
          = .ok slice →
      (fetchSnippetsInParallel requests att opts sched).getD i failurePlaceholder
        = ⟨slice.content, slice.metaWarnings,
            some (fetchStartLine (requests.getD i default)),
            some (fetchEndLine (requests.getD i default)),
            some (requests.getD i default).startLine,
            some (requests.getD i default).endLine⟩ := by
    intro i hi slice hs
    rw [fetchSnippets_entry requests att opts sched hsched i hi]
    rw [show snippetMapperOutcome opts.signalAborted (att i) (requests.getD i default)
        (opts.retryAttempts.getD 1)
        = .resolve (slice, ⟨fetchStartLine (requests.getD i default),
            fetchEndLine (requests.getD i default),
            (requests.getD i default).startLine,
            (requests.getD i default).endLine⟩) by
      unfold snippetMapperOutcome
      rw [hs]]
    exact toSnippetResult_resolve i slice _
  refine ⟨hlen, herr, hok, ?_⟩
  intro i k err slice hi hfail hoksucc
  constructor
  · intro hk
    have hsucc := (snippetFetch_retry_backoff opts.signalAborted (att i)
      (opts.retryAttempts.getD 1) k err (fun a ha => (hfail a ha).1)
      (fun a ha => (hfail a ha).2)).1 slice hoksucc hk
    have houtcome : (runSnippetAttempts opts.signalAborted (att i)
        (opts.retryAttempts.getD 1)).outcome = .ok slice := by
      rw [hsucc]
    rw [hok i hi slice houtcome]
  · intro hk
    have hexh := (snippetFetch_retry_backoff opts.signalAborted (att i)
      (opts.retryAttempts.getD 1) (opts.retryAttempts.getD 1 + 1) err
      (fun a ha => (hfail a (by omega)).1)
      (fun a ha => (hfail a (by omega)).2)).2.1 rfl
    have houtcome : (runSnippetAttempts opts.signalAborted (att i)
        (opts.retryAttempts.getD 1)).outcome
        = .error (err (opts.retryAttempts.getD 1)) := by
      rw [hexh]
    exact herr i hi _ houtcome

/-- Counterexample to C5 as stated: a fetch that fails its first
attempt (`k = 1`) with a per-attempt timeout (`AbortError`) and would
succeed on the next attempt, with `retryAttempts = 1 ≥ k`, still yields
the failure placeholder — not the successful content — because the
retry loop treats `AbortError` as terminal. -/
theorem fetchSnippets_retry_claim_cex :
    abortThenOk 0 0 = .error ⟨"AbortError", "The operation was aborted"⟩ ∧
    abortThenOk 0 1 = .ok ⟨"snippet text", none⟩ ∧
    (fetchSnippetsInParallel [sampleRequest] abortThenOk cexOpts [0]).getD 0
      failurePlaceholder = failurePlaceholder ∧
    ((fetchSnippetsInParallel [sampleRequest] abortThenOk cexOpts [0]).getD 0
      failurePlaceholder).content ≠ "snippet text" := by
  have habort : runSnippetAttempts cexOpts.signalAborted (abortThenOk 0)
      (cexOpts.retryAttempts.getD 1)
      = ⟨.error ⟨"AbortError", "The operation was aborted"⟩, 1, []⟩ :=
    attemptLoop_abort (abortThenOk 0) (cexOpts.retryAttempts.getD 1) 0
      ⟨"AbortError", "The operation was aborted"⟩ rfl rfl
  have hout : snippetMapperOutcome cexOpts.signalAborted (abortThenOk 0)
      (([sampleRequest] : List SnippetFetchRequest).getD 0 default)
      (cexOpts.retryAttempts.getD 1)
      = .reject ⟨"AbortError", "The operation was aborted"⟩ := by
    unfold snippetMapperOutcome
    rw [habort]
  have hentry := fetchSnippets_entry [sampleRequest] abortThenOk cexOpts [0]
    (by decide) 0 (by decide)
  rw [hout] at hentry
  rw [toSnippetResult_reject] at hentry
  exact ⟨rfl, rfl, hentry, by rw [hentry]; decide⟩

/-- Witness for the amended C5: one transient (non-abort) failure then
success with `retryAttempts = 1` yields the successful content. -/
theorem fetchSnippets_placeholder_and_retry_witness :
    ([sampleRequest] : List SnippetFetchRequest).length ≤ ([0] : List Nat).length ∧
    (∀ a, a < 1 → (fun (_ : Nat) => recoverAttempt) 0 a
        = .error ((fun _ => JsError.mk "FetchError" "boom") a) ∧
      ((fun (_ : Nat) => JsError.mk "FetchError" "boom") a).name ≠ "AbortError") ∧
    (fun (_ : Nat) => recoverAttempt) 0 1
      = .ok (⟨"recovered", none⟩ : FileSliceResponse) ∧
    1 ≤ cexOpts.retryAttempts.getD 1 ∧
    ((fetchSnippetsInParallel [sampleRequest] (fun _ => recoverAttempt) cexOpts
      [0]).getD 0 failurePlaceholder).content = "recovered" := by
  have hfail : ∀ a, a < 1 → (fun (_ : Nat) => recoverAttempt) 0 a
      = .error ((fun _ => JsError.mk "FetchError" "boom") a) ∧
      ((fun (_ : Nat) => JsError.mk "FetchError" "boom") a).name ≠ "AbortError" := by
    intro a ha
    have ha0 : a = 0 := by omega
    subst ha0
    exact ⟨rfl, by show (JsError.mk "FetchError" "boom").name ≠ "AbortError"; decide⟩
  refine ⟨by decide, hfail, rfl, by decide, ?_⟩
  exact ((fetchSnippets_placeholder_and_retry [sampleRequest] (fun _ => recoverAttempt)
    cexOpts [0] (by decide)).2.2.2 0 1 (fun _ => JsError.mk "FetchError" "boom")
    ⟨"recovered", none⟩ (by decide) hfail rfl).1 (by decide)

theorem jarrBytes_cons (v : JVal) (xs : List JVal) :
    jarrBytes (v :: xs) = jsonSizeBytes v + (if xs.isEmpty then 0 else 1) + jarrBytes xs := by
  cases xs with
  | nil => simp [jarrBytes]
  | cons w rest => simp [jarrBytes]

theorem jobjBytes_cons (kv : JStr × JVal) (l : List (JStr × JVal)) (h : l ≠ []) :
    jobjBytes (kv :: l)
      = 2 + jsonStrBytes kv.1 + 1 + jsonSizeBytes kv.2 + 1 + jobjBytes l := by
  cases l with
  | nil => exact absurd rfl h
  | cons kv2 rest => simp [jobjBytes]

theorem jarrBytes_dropLast_le (xs : List JVal) :
    jarrBytes xs.dropLast ≤ jarrBytes xs := by
  induction xs with
  | nil => simp
  | cons v rest ih =>
    cases rest with
    | nil => simp [jarrBytes]
    | cons w rest2 =>
      rw [List.dropLast_cons₂, jarrBytes_cons, jarrBytes_cons v (w :: rest2)]
      have h2 := ih
      have hc : (if ((w :: rest2).isEmpty = true) then (0 : Nat) else 1) = 1 := by
        simp
      have hd : (if (((w :: rest2).dropLast.isEmpty) = true) then (0 : Nat) else 1) ≤ 1 := by
        split <;> omega
      omega

theorem jsonStrBytes_cons_safe (c : Nat) (rest : JStr) (h : nonSurrogate c) :
    jsonStrBytes (c :: rest) = escapedUnitBytes c + jsonStrBytes rest := by
  cases rest with
  | nil =>
    have h1 : jsonStrBytes [c]
        = if isHighSurrogate c ∨ isLowSurrogate c then 6 else escapedUnitBytes c := rfl
    rw [h1, if_neg (by simp [h.1, h.2])]
    simp [jsonStrBytes]
  | cons d rest2 =>
    have h1 : jsonStrBytes (c :: d :: rest2)
        = if isHighSurrogate c then
            (if isLowSurrogate d then 4 + jsonStrBytes rest2
             else 6 + jsonStrBytes (d :: rest2))
          else if isLowSurrogate c then 6 + jsonStrBytes (d :: rest2)
          else escapedUnitBytes c + jsonStrBytes (d :: rest2) := rfl
    rw [h1, if_neg (by simp [h.1]), if_neg (by simp [h.2])]

theorem jsonStrBytes_sf_append (xs ys : JStr) (h : surrogateFree xs) :
    jsonStrBytes (xs ++ ys) = (xs.map escapedUnitBytes).sum + jsonStrBytes ys := by
  induction xs with
  | nil => simp
  | cons c rest ih =>
    have hc : nonSurrogate c := h c (by simp)
    have hrest : surrogateFree rest := fun d hd => h d (by simp [hd])
    rw [List.cons_append, jsonStrBytes_cons_safe c _ hc, ih hrest,
      List.map_cons, List.sum_cons]
    omega

theorem jsonStrBytes_sf (xs : JStr) (h : surrogateFree xs) :
    jsonStrBytes xs = (xs.map escapedUnitBytes).sum := by
  have := jsonStrBytes_sf_append xs [] h
  simpa using this

theorem surrogateFree_take (xs : JStr) (n : Nat) (h : surrogateFree xs) :
    surrogateFree (xs.take n) := fun c hc => h c (List.mem_of_mem_take hc)

theorem jsonStrBytes_take_le (xs : JStr) (n : Nat) (h : surrogateFree xs) :
    jsonStrBytes (xs.take n) ≤ jsonStrBytes xs := by
  rw [jsonStrBytes_sf _ h, jsonStrBytes_sf _ (surrogateFree_take xs n h)]
  calc ((xs.take n).map escapedUnitBytes).sum
      = ((xs.map escapedUnitBytes).take n).sum := by rw [List.map_take]
    _ ≤ (xs.map escapedUnitBytes).sum :=
        List.Sublist.sum_le_sum (List.take_sublist n _) (fun x _ => Nat.zero_le x)

theorem jsonStrBytes_replicate_ascii (n c : Nat) (h : nonSurrogate c) :
    jsonStrBytes (List.replicate n c) = n * escapedUnitBytes c := by
  induction n with
  | zero => simp [jsonStrBytes]
  | succ k ih =>
    rw [List.replicate_succ, jsonStrBytes_cons_safe c _ h, ih]
    ring

theorem jsonSizeBytes_jobj (fs : List (JStr × JVal)) :
    jsonSizeBytes (JVal.jobj fs) = 2 + jobjBytes fs := rfl

theorem jsonSizeBytes_jarr (xs : List JVal) :
    jsonSizeBytes (JVal.jarr xs) = 2 + jarrBytes xs := rfl

theorem resultBytes_formula (c : List Block) (mh : List MetaHit) (m : MetaFields) :
    resultBytes ⟨c, mh, m⟩
      = 39 + jarrBytes (c.map blockJVal) + jsonSizeBytes (metaJVal mh m) := by
  simp only [resultBytes, resultJVal]
  rw [jsonSizeBytes_jobj]
  rw [jobjBytes_cons _ _ (by simp), jobjBytes_cons _ _ (by simp)]
  have hs : jobjBytes [(ascii "_meta", metaJVal mh m)]
      = 2 + jsonStrBytes (ascii "_meta") + 1 + jsonSizeBytes (metaJVal mh m) := by
    simp [jobjBytes]
  rw [hs]
  dsimp only
  rw [jsonSizeBytes_jarr]
  have h1 : jsonStrBytes (ascii "content") = 7 := by decide
  have h2 : jsonStrBytes (ascii "isError") = 7 := by decide
  have h3 : jsonStrBytes (ascii "_meta") = 5 := by decide
  have h4 : jsonSizeBytes (JVal.jbool false) = 5 := rfl
  rw [h1, h2, h3, h4]
  omega

theorem resultBytes_eq_content (c : List Block) (mh : List MetaHit) (m : MetaFields) :
    resultBytes ⟨c, mh, m⟩
      = jarrBytes (c.map blockJVal) + resultBytes ⟨[], mh, m⟩ := by
  rw [resultBytes_formula, resultBytes_formula]
  simp only [List.map_nil, jarrBytes]
  omega

theorem metaTail_ne_nil (m : MetaFields) : metaTail m ≠ [] := by
  intro h
  have := congrArg List.length h
  simp [metaTail, List.length_append] at this

theorem metaBytes_eq (mh : List MetaHit) (m : MetaFields) :
    jsonSizeBytes (metaJVal mh m)
      = jarrBytes (mh.map metaHitJVal) + jsonSizeBytes (metaJVal [] m) := by
  simp only [metaJVal]
  rw [jsonSizeBytes_jobj, jsonSizeBytes_jobj]
  rw [jobjBytes_cons _ _ (metaTail_ne_nil m),
    jobjBytes_cons _ _ (metaTail_ne_nil m)]
  dsimp only
  rw [jsonSizeBytes_jarr, jsonSizeBytes_jarr]
  simp only [List.map_nil, jarrBytes]
  omega

theorem resultBytes_eq_meta (c : List Block) (mh : List MetaHit) (m : MetaFields) :
    resultBytes ⟨c, mh, m⟩
      = jarrBytes (mh.map metaHitJVal) + resultBytes ⟨c, [], m⟩ := by
  rw [resultBytes_formula, resultBytes_formula, metaBytes_eq]
  omega

theorem resultBytes_pos (s : TrimState) : 0 < resultBytes s := by
  have h : resultBytes s = resultBytes ⟨s.content, s.metaHits, s.meta⟩ := rfl
  rw [h, resultBytes_formula]
  omega

theorem blockBytes_text (t : JStr) :
    jsonSizeBytes (blockJVal (.text t)) = 25 + jsonStrBytes t := by
  simp only [blockJVal, jsonSizeBytes, jobjBytes]
  have h1 : jsonStrBytes (ascii "type") = 4 := by decide
  have h2 : jsonStrBytes (ascii "text") = 4 := by decide
  rw [h1, h2]
  omega

theorem blockBytes_resource (u mi t : JStr) :
    jsonSizeBytes (blockJVal (.resource u mi t))
      = 65 + jsonStrBytes u + jsonStrBytes mi + jsonStrBytes t := by
  simp only [blockJVal, jsonSizeBytes, jobjBytes]
  have h1 : jsonStrBytes (ascii "type") = 4 := by decide
  have h2 : jsonStrBytes (ascii "resource") = 8 := by decide
  have h3 : jsonStrBytes (ascii "uri") = 3 := by decide
  have h4 : jsonStrBytes (ascii "mimeType") = 8 := by decide
  have h5 : jsonStrBytes (ascii "text") = 4 := by decide
  rw [h1, h2, h3, h4, h5]
  omega

theorem jarrBytes_le_of_forall2 {xs ys : List JVal}
    (h : List.Forall₂ (fun a b => jsonSizeBytes b ≤ jsonSizeBytes a) xs ys) :
    jarrBytes ys ≤ jarrBytes xs := by
  induction h with
  | nil => exact le_refl _
  | @cons a b l1 l2 hab hrest ih =>
    rw [jarrBytes_cons, jarrBytes_cons]
    have hlen : l1.length = l2.length := hrest.length_eq
    have hiff : l1.isEmpty = l2.isEmpty := by
      cases l1 <;> cases l2 <;> simp_all
    rw [hiff]
    cases l2.isEmpty <;> simp <;> omega

theorem resultBytes_le_of_forall2 {c c' : List Block} (mh : List MetaHit)
    (m : MetaFields) (h : List.Forall₂ blockLE c c') :
    resultBytes ⟨c', mh, m⟩ ≤ resultBytes ⟨c, mh, m⟩ := by
  rw [resultBytes_formula, resultBytes_formula]
  have h2 : List.Forall₂ (fun a b => jsonSizeBytes b ≤ jsonSizeBytes a)
      (c.map blockJVal) (c'.map blockJVal) := by
    rw [List.forall₂_map_right_iff, List.forall₂_map_left_iff]
    exact h
  have := jarrBytes_le_of_forall2 h2
  omega

theorem forall2_refl_blockLE (l : List Block) : List.Forall₂ blockLE l l :=
  List.forall₂_same.mpr (fun b _ => le_refl _)

theorem forall2_set_blockLE (l : List Block) (i : Nat) (b' : Block)
    (h : ∀ b, l.get? i = some b → blockLE b b') :
    List.Forall₂ blockLE l (l.set i b') := by
  induction l generalizing i with
  | nil => simp [List.set]
  | cons x xs ih =>
    cases i with
    | zero =>
      simp only [List.set]
      exact List.Forall₂.cons (h x rfl) (forall2_refl_blockLE xs)
    | succ i =>
      simp only [List.set]
      exact List.Forall₂.cons (le_refl _) (ih i (fun b hb => h b hb))

theorem forall2_append_blockLE {l1 l2 l3 l4 : List Block}
    (h1 : List.Forall₂ blockLE l1 l2) (h2 : List.Forall₂ blockLE l3 l4) :
    List.Forall₂ blockLE (l1 ++ l3) (l2 ++ l4) := List.rel_append h1 h2

theorem trimStage1_id (cap : Nat) (s : TrimState) (h : resultBytes s ≤ cap) :
    trimStage1 cap s = s := by
  unfold trimStage1
  rw [if_neg (by omega)]

theorem trimStage2_id (cap : Nat) (s : TrimState) (h : resultBytes s ≤ cap) :
    trimStage2 cap s = s := by
  unfold trimStage2
  rw [if_neg (by omega)]

theorem trimStage3_id (cap : Nat) (s : TrimState) (h : resultBytes s ≤ cap) :
    trimStage3 cap s = s := by
  unfold trimStage3
  rw [if_neg (by omega)]

theorem trimStage4_id (cap : Nat) (s : TrimState) (h : resultBytes s ≤ cap) :
    trimStage4 cap s = (s, false) := by
  unfold trimStage4
  rw [if_neg (by omega)]

theorem promptLoop_cases (cap : Nat) (sz : JStr → Nat) :
    ∀ n t, t.length ≤ n →
      sz (promptLoop cap sz t) ≤ cap ∨ promptLoop cap sz t = [] ∨
        (promptLoop cap sz t = t ∧ ¬ (t.length > 0 ∧ sz t > cap)) := by
  intro n
  induction n with
  | zero =>
    intro t ht
    have h0 : t = [] := List.length_eq_zero.mp (by omega)
    subst h0
    rw [promptLoop]
    simp
  | succ n ih =>
    intro t ht
    rw [promptLoop]
    split
    · rename_i hguard
      have hdiv : t.length * 9 / 10 < t.length :=
        Nat.div_lt_of_lt_mul (by omega)
      have hlt : (t.take (max (t.length * 9 / 10) 0)).length < t.length := by
        rw [List.length_take]
        omega
      rcases ih (t.take (max (t.length * 9 / 10) 0)) (by omega) with h | h | ⟨heq, hng⟩
      · exact Or.inl h
      · exact Or.inr (Or.inl h)
      · rw [heq]
        by_cases hemp : t.take (max (t.length * 9 / 10) 0) = []
        · exact Or.inr (Or.inl hemp)
        · left
          have hpos : 0 < (t.take (max (t.length * 9 / 10) 0)).length :=
            List.length_pos.mpr hemp
          omega
    · rename_i hguard
      exact Or.inr (Or.inr ⟨rfl, hguard⟩)

theorem promptLoop_take (cap : Nat) (sz : JStr → Nat) :
    ∀ n t, t.length ≤ n → ∃ k, promptLoop cap sz t = t.take k := by
  intro n
  induction n with
  | zero =>
    intro t ht
    have h0 : t = [] := List.length_eq_zero.mp (by omega)
    subst h0
    rw [promptLoop]
    exact ⟨0, by simp⟩
  | succ n ih =>
    intro t ht
    rw [promptLoop]
    split
    · rename_i hguard
      have hdiv : t.length * 9 / 10 < t.length :=
        Nat.div_lt_of_lt_mul (by omega)
      have hlt : (t.take (max (t.length * 9 / 10) 0)).length < t.length := by
        rw [List.length_take]
        omega
      obtain ⟨k, hk⟩ := ih (t.take (max (t.length * 9 / 10) 0)) (by omega)
      exact ⟨min k (max (t.length * 9 / 10) 0), by rw [hk, List.take_take]⟩
    · exact ⟨t.length, (List.take_length t).symm⟩

theorem blockLE_text_nil (t : JStr) : blockLE (.text t) (.text []) := by
  unfold blockLE
  rw [blockBytes_text, blockBytes_text]
  simp [jsonStrBytes]

theorem trimStage1_le (cap : Nat) (s : TrimState) :
    resultBytes (trimStage1 cap s) ≤ resultBytes s := by
  unfold trimStage1
  split
  · rename_i hover
    split
    · rename_i b0 t rest hc
      have hst : ({ s with content := b0 :: Block.text t :: rest } : TrimState) = s := by
        rw [← hc]
      rcases promptLoop_cases cap
          (fun u => resultBytes { s with content := b0 :: Block.text u :: rest })
          t.length t (le_refl _) with h | h | ⟨heq, _⟩
      · calc resultBytes { s with content := b0 :: Block.text (promptLoop cap
              (fun u => resultBytes { s with content := b0 :: Block.text u :: rest }) t)
              :: rest }
            ≤ cap := h
          _ ≤ resultBytes s := by rw [← hst] at hover ⊢; omega
      · rw [h]
        calc resultBytes { s with content := b0 :: Block.text [] :: rest }
            ≤ resultBytes { s with content := b0 :: Block.text t :: rest } :=
              resultBytes_le_of_forall2 s.metaHits s.meta
                (List.Forall₂.cons (le_refl _)
                  (List.Forall₂.cons (blockLE_text_nil t) (forall2_refl_blockLE rest)))
          _ = resultBytes s := by rw [hst]
      · rw [heq, hst]
    · exact le_refl _
  · exact le_refl _

theorem get?_set_self {α : Type} (l : List α) (i : Nat) (a : α)
    (h : i < l.length) : (l.set i a).get? i = some a := by
  induction l generalizing i with
  | nil => simp at h
  | cons x xs ih =>
    cases i with
    | zero => simp [List.set]
    | succ i =>
      simp only [List.set, List.get?_cons_succ]
      exact ih i (by simpa using h)

theorem get?_set_ne {α : Type} (l : List α) (i j : Nat) (a : α)
    (h : j ≠ i) : (l.set i a).get? j = l.get? j := by
  induction l generalizing i j with
  | nil => simp [List.set]
  | cons x xs ih =>
    cases i with
    | zero =>
      cases j with
      | zero => exact absurd rfl h
      | succ j => simp [List.set]
    | succ i =>
      cases j with
      | zero => simp [List.set]
      | succ j =>
        simp only [List.set, List.get?_cons_succ]
        exact ih i j (by omega)

theorem get?_some_lt {α : Type} (l : List α) (i : Nat) (a : α)
    (h : l.get? i = some a) : i < l.length := by
  induction l generalizing i with
  | nil => simp at h
  | cons x xs ih =>
    cases i with
    | zero => simp
    | succ i =>
      simp only [List.get?_cons_succ] at h
      have := ih i h
      simp
      omega

theorem zeroLoop_step (content : List Block) (i : Nat) :
    ((match content.get? (i + 2) with
      | some (.resource u mm _) => content.set (i + 2) (.resource u mm [])
      | _ => content).get? (i + 2) = (content.get? (i + 2)).map blankResource) ∧
    (∀ p, p ≠ i + 2 →
      (match content.get? (i + 2) with
       | some (.resource u mm _) => content.set (i + 2) (.resource u mm [])
       | _ => content).get? p = content.get? p) ∧
    ((match content.get? (i + 2) with
      | some (.resource u mm _) => content.set (i + 2) (.resource u mm [])
      | _ => content).length = content.length) := by
  cases hg : content.get? (i + 2) with
  | none =>
    simp only [hg]
    exact ⟨rfl, fun _ _ => trivial, trivial⟩
  | some b =>
    cases b with
    | text t =>
      simp only [hg]
      exact ⟨rfl, fun _ _ => trivial, trivial⟩
    | resource u mm t =>
      have hin : i + 2 < content.length := get?_some_lt content (i + 2) _ hg
      simp only [hg]
      refine ⟨?_, ?_, ?_⟩
      · rw [get?_set_self _ _ _ hin]
        rfl
      · intro p hp
        exact get?_set_ne _ _ _ _ hp
      · exact List.length_set content _ _

theorem zeroLoop_spec (cap : Nat) (mh : List MetaHit) (m : MetaFields) :
    ∀ i content, ∃ j, j ≤ i ∧
      (zeroLoop cap mh m i content).length = content.length ∧
      (∀ p, p < j + 2 → (zeroLoop cap mh m i content).get? p = content.get? p) ∧
      (∀ p, i + 2 ≤ p → (zeroLoop cap mh m i content).get? p = content.get? p) ∧
      (∀ p, j + 2 ≤ p → p < i + 2 →
        (zeroLoop cap mh m i content).get? p = (content.get? p).map blankResource) := by
  intro i
  induction i with
  | zero =>
    intro content
    exact ⟨0, le_refl _, rfl, fun p _ => rfl, fun p _ => rfl, fun p h1 h2 => by omega⟩
  | succ i ih =>
    intro content
    rw [zeroLoop]
    split
    · obtain ⟨hstep1, hstep2, hstep3⟩ := zeroLoop_step content i
      obtain ⟨j, hj, hlen, hlow, hhigh, hmid⟩ := ih
        (match content.get? (i + 2) with
         | some (.resource u mm _) => content.set (i + 2) (.resource u mm [])
         | _ => content)
      refine ⟨j, by omega, by rw [hlen, hstep3], ?_, ?_, ?_⟩
      · intro p hp
        rw [hlow p hp, hstep2 p (by omega)]
      · intro p hp
        rw [hhigh p (by omega), hstep2 p (by omega)]
      · intro p hp1 hp2
        by_cases hpi : p = i + 2
        · subst hpi
          rw [hhigh (i + 2) (le_refl _), hstep1]
        · rw [hmid p hp1 (by omega), hstep2 p hpi]
    · exact ⟨i + 1, le_refl _, rfl, fun p _ => rfl, fun p _ => rfl,
        fun p h1 h2 => by omega⟩

theorem zeroLoop_le (cap : Nat) (mh : List MetaHit) (m : MetaFields) :
    ∀ i content,
      resultBytes ⟨zeroLoop cap mh m i content, mh, m⟩
        ≤ resultBytes ⟨content, mh, m⟩ := by
  intro i
  induction i with
  | zero => intro content; exact le_refl _
  | succ i ih =>
    intro content
    rw [zeroLoop]
    split
    · refine le_trans (ih _) ?_
      cases hg : content.get? (i + 2) with
      | none => simp only [hg]; exact le_refl _
      | some b =>
        cases b with
        | text t => simp only [hg]; exact le_refl _
        | resource u mm t =>
          simp only [hg]
          refine resultBytes_le_of_forall2 mh m (forall2_set_blockLE _ _ _ ?_)
          intro b hb
          rw [hg] at hb
          cases hb
          unfold blockLE
          rw [blockBytes_resource, blockBytes_resource]
          simp [jsonStrBytes]
    · exact le_refl _

theorem zeroLoop_id_of_short (cap : Nat) (mh : List MetaHit) (m : MetaFields) :
    ∀ i content, content.length ≤ 2 → zeroLoop cap mh m i content = content := by
  intro i
  induction i with
  | zero => intro content _; rfl
  | succ i ih =>
    intro content hshort
    rw [zeroLoop]
    split
    · have hg : content.get? (i + 2) = none := by
        rw [List.get?_eq_none]
        omega
      simp only [hg]
      exact ih content hshort
    · rfl

theorem capBlock_le (capChars : Nat) (b : Block) (h : blockTextSF b) :
    blockLE b (capBlock capChars b) := by
  cases b with
  | text t => exact le_refl _
  | resource u mi t =>
    simp only [capBlock]
    split
    · unfold blockLE
      rw [blockBytes_resource, blockBytes_resource]
      have := jsonStrBytes_take_le t capChars h
      omega
    · exact le_refl _

theorem capLoop_le (cap capChars : Nat) (mh : List MetaHit) (m : MetaFields) :
    ∀ rest pre, (∀ b ∈ rest, blockTextSF b) →
      resultBytes ⟨capLoop cap capChars mh m pre rest, mh, m⟩
        ≤ resultBytes ⟨pre ++ rest, mh, m⟩ := by
  intro rest
  induction rest with
  | nil =>
    intro pre _
    rw [capLoop]
    simp
  | cons b rest2 ih =>
    intro pre hsf
    rw [capLoop]
    split
    · refine le_trans (ih (pre ++ [capBlock capChars b])
        (fun x hx => hsf x (by simp [hx]))) ?_
      rw [List.append_assoc]
      refine resultBytes_le_of_forall2 mh m ?_
      refine forall2_append_blockLE (forall2_refl_blockLE pre) ?_
      simp only [List.singleton_append]
      exact List.Forall₂.cons (capBlock_le capChars b (hsf b (by simp)))
        (forall2_refl_blockLE rest2)
    · exact le_refl _

theorem capLoop_id (cap capChars : Nat) (mh : List MetaHit) (m : MetaFields) :
    ∀ rest pre, (∀ b ∈ rest, capBlock capChars b = b) →
      capLoop cap capChars mh m pre rest = pre ++ rest := by
  intro rest
  induction rest with
  | nil =>
    intro pre _
    rw [capLoop]
    simp
  | cons b rest2 ih =>
    intro pre hid
    rw [capLoop]
    split
    · rw [hid b (by simp), ih (pre ++ [b]) (fun x hx => hid x (by simp [hx]))]
      simp
    · rfl

theorem capLoop_over (cap capChars : Nat) (mh : List MetaHit) (m : MetaFields) :
    ∀ rest pre,
      resultBytes ⟨capLoop cap capChars mh m pre rest, mh, m⟩ > cap →
      capLoop cap capChars mh m pre rest = pre ++ rest.map (capBlock capChars) := by
  intro rest
  induction rest with
  | nil =>
    intro pre _
    rw [capLoop]
    simp
  | cons b rest2 ih =>
    intro pre hover
    rw [capLoop]
    rw [capLoop] at hover
    split
    · rename_i hguard
      rw [if_pos hguard] at hover
      rw [ih (pre ++ [capBlock capChars b]) hover]
      simp
    · rename_i hguard
      rw [if_neg hguard] at hover
      omega

theorem capBlock_id_of_le (capChars : Nat) (b : Block)
    (h : ∀ u mi t, b = Block.resource u mi t → t.length ≤ capChars) :
    capBlock capChars b = b := by
  cases b with
  | text t => rfl
  | resource u mi t =>
    simp only [capBlock]
    rw [if_neg]
    have := h u mi t rfl
    omega

theorem capBlock_result_short (capChars : Nat) (b : Block) :
    ∀ u mi t, capBlock capChars b = Block.resource u mi t → t.length ≤ capChars := by
  intro u mi t h
  cases b with
  | text t2 => simp [capBlock] at h
  | resource u2 mi2 t2 =>
    simp only [capBlock] at h
    split at h
    · rename_i hlong
      cases h
      simp only [List.length_take]
      omega
    · rename_i hshort
      cases h
      omega

theorem jarrBytes_take_le (n : Nat) (l : List JVal) :
    jarrBytes (l.take n) ≤ jarrBytes l := by
  induction l generalizing n with
  | nil => simp
  | cons x xs ih =>
    cases n with
    | zero => simp [jarrBytes]
    | succ n =>
      rw [List.take_cons_succ, jarrBytes_cons, jarrBytes_cons]
      cases hxs : xs with
      | nil => simp [List.take_nil]
      | cons y ys =>
        have h1 := ih (n := n)
        rw [hxs] at h1
        have h2 : (if ((y :: ys).take n).isEmpty = true then (0 : Nat) else 1) ≤ 1 := by
          split <;> omega
        have h3 : (if ((y :: ys) : List JVal).isEmpty = true then (0 : Nat) else 1) = 1 := by
          simp
        omega

theorem resultBytes_take_le (c : List Block) (mh : List MetaHit) (m : MetaFields)
    (n p : Nat) :
    resultBytes ⟨c.take n, mh.take p, m⟩ ≤ resultBytes ⟨c, mh, m⟩ := by
  rw [resultBytes_formula, resultBytes_formula, metaBytes_eq (mh.take p) m,
    metaBytes_eq mh m]
  have h1 : jarrBytes ((c.take n).map blockJVal) ≤ jarrBytes (c.map blockJVal) := by
    rw [List.map_take]
    exact jarrBytes_take_le n (c.map blockJVal)
  have h2 : jarrBytes ((mh.take p).map metaHitJVal)
      ≤ jarrBytes (mh.map metaHitJVal) := by
    rw [List.map_take]
    exact jarrBytes_take_le p (mh.map metaHitJVal)
  omega

theorem dropLoop_spec (cap : Nat) (m : MetaFields) :
    ∀ n content mh, content.length ≤ n → ∃ k,
      dropLoop cap m content mh
        = (content.take (content.length - k), mh.take (mh.length - k)) ∧
      k + 1 ≤ max content.length 1 ∧
      ((dropLoop cap m content mh).1.length ≤ 1 ∨
        resultBytes ⟨(dropLoop cap m content mh).1, (dropLoop cap m content mh).2, m⟩
          ≤ cap) := by
  intro n
  induction n with
  | zero =>
    intro content mh hlen
    have h0 : content = [] := List.length_eq_zero.mp (by omega)
    subst h0
    rw [dropLoop]
    simp
  | succ n ih =>
    intro content mh hlen
    rw [dropLoop]
    split
    · rename_i hguard
      have hlen2 : content.dropLast.length ≤ n := by
        rw [List.length_dropLast]
        omega
      obtain ⟨k, hk, hkb, hkg⟩ := ih content.dropLast mh.dropLast hlen2
      refine ⟨k + 1, ?_, ?_, ?_⟩
      · rw [hk]
        rw [List.length_dropLast, List.length_dropLast, List.dropLast_eq_take,
          List.dropLast_eq_take, List.take_take, List.take_take]
        rw [Prod.mk.injEq]
        constructor
        · congr 1
          omega
        · congr 1
          omega
      · rw [List.length_dropLast] at hkb
        rcases le_max_iff.mp hkb with h | h
        · refine le_max_iff.mpr (Or.inl ?_)
          omega
        · refine le_max_iff.mpr (Or.inl ?_)
          omega
      · exact hkg
    · rename_i hguard
      refine ⟨0, ?_, ?_, ?_⟩
      · simp
      · exact le_max_right _ _
      · dsimp only
        by_cases h1 : content.length ≤ 1
        · exact Or.inl h1
        · right
          have : ¬ resultBytes ⟨content, mh, m⟩ > cap := fun hc => hguard ⟨by omega, hc⟩
          omega

theorem meta_complete_update_id (m : MetaFields) (h : m.complete = some false) :
    ({ m with complete := some false } : MetaFields) = m := by
  cases m
  simp_all

theorem trimStage4_le (cap : Nat) (s : TrimState)
    (h : s.meta.complete = some false) :
    resultBytes (trimStage4 cap s).1 ≤ resultBytes s := by
  unfold trimStage4
  split
  · dsimp only
    obtain ⟨k, hk, _, _⟩ :=
      dropLoop_spec cap s.meta s.content.length s.content s.metaHits (le_refl _)
    rw [hk]
    dsimp only
    rw [meta_complete_update_id s.meta h]
    calc resultBytes ⟨s.content.take (s.content.length - k),
          s.metaHits.take (s.metaHits.length - k), s.meta⟩
        ≤ resultBytes ⟨s.content, s.metaHits, s.meta⟩ := resultBytes_take_le _ _ _ _ _
      _ = resultBytes s := rfl
  · exact le_refl _

theorem blockTextSF_capBlock (n : Nat) (b : Block) (h : blockTextSF b) :
    blockTextSF (capBlock n b) := by
  cases b with
  | text t => exact trivial
  | resource u mi t =>
    simp only [capBlock]
    split
    · exact surrogateFree_take t n h
    · exact h

theorem capLoop_mem (cap n : Nat) (mh : List MetaHit) (m : MetaFields)
    (P : Block → Prop) (hP : ∀ b, P b → P (capBlock n b)) :
    ∀ rest pre, (∀ x ∈ pre, P x) → (∀ x ∈ rest, P x) →
      ∀ x ∈ capLoop cap n mh m pre rest, P x := by
  intro rest
  induction rest with
  | nil =>
    intro pre hpre _ x hx
    rw [capLoop] at hx
    exact hpre x hx
  | cons b rest2 ih =>
    intro pre hpre hrest x hx
    rw [capLoop] at hx
    split at hx
    · refine ih (pre ++ [capBlock n b]) ?_ (fun y hy => hrest y (by simp [hy])) x hx
      intro y hy
      rcases List.mem_append.mp hy with hy | hy
      · exact hpre y hy
      · rw [List.mem_singleton] at hy
        subst hy
        exact hP b (hrest b (by simp))
    · rcases List.mem_append.mp hx with hy | hy
      · exact hpre x hy
      · exact hrest x hy

theorem trimStage2_le (cap : Nat) (s : TrimState)
    (h : ∀ b ∈ s.content, blockTextSF b) :
    resultBytes (trimStage2 cap s) ≤ resultBytes s := by
  unfold trimStage2
  split
  · have h1 := capLoop_le cap SHRUNK_SNIPPET_CHAR_CAP s.metaHits s.meta s.content [] h
    have hsf1 : ∀ x ∈ capLoop cap SHRUNK_SNIPPET_CHAR_CAP s.metaHits s.meta []
        s.content, blockTextSF x :=
      capLoop_mem cap SHRUNK_SNIPPET_CHAR_CAP s.metaHits s.meta blockTextSF
        (blockTextSF_capBlock _) s.content [] (by simp) h
    have h2 := capLoop_le cap MIN_SNIPPET_CHAR_FLOOR s.metaHits s.meta
      (capLoop cap SHRUNK_SNIPPET_CHAR_CAP s.metaHits s.meta [] s.content) [] hsf1
    simp only [List.nil_append] at h1 h2
    calc resultBytes ⟨capLoop cap MIN_SNIPPET_CHAR_FLOOR s.metaHits s.meta []
          (capLoop cap SHRUNK_SNIPPET_CHAR_CAP s.metaHits s.meta [] s.content),
          s.metaHits, s.meta⟩
        ≤ resultBytes ⟨capLoop cap SHRUNK_SNIPPET_CHAR_CAP s.metaHits s.meta []
            s.content, s.metaHits, s.meta⟩ := h2
      _ ≤ resultBytes ⟨s.content, s.metaHits, s.meta⟩ := h1
      _ = resultBytes s := rfl
  · exact le_refl _

theorem trimStage3_le (cap : Nat) (s : TrimState) :
    resultBytes (trimStage3 cap s) ≤ resultBytes s := by
  unfold trimStage3
  split
  · calc resultBytes ⟨zeroLoop cap s.metaHits s.meta s.metaHits.length s.content,
          s.metaHits, s.meta⟩
        ≤ resultBytes ⟨s.content, s.metaHits, s.meta⟩ :=
          zeroLoop_le cap s.metaHits s.meta s.metaHits.length s.content
      _ = resultBytes s := rfl
  · exact le_refl _

theorem trimPayloadAt_of_le (cap : Nat) (s : TrimState)
    (h : resultBytes s ≤ cap) : trimPayloadAt cap s = s := by
  unfold trimPayloadAt
  rw [trimStage1_id cap s h, trimStage2_id cap s h, trimStage3_id cap s h,
    trimStage4_id cap s h]

theorem trimPayloadAt_stop1 (cap : Nat) (s : TrimState)
    (h : resultBytes (trimStage1 cap s) ≤ cap) :
    trimPayloadAt cap s = trimStage1 cap s := by
  unfold trimPayloadAt
  rw [trimStage2_id cap _ h, trimStage3_id cap _ h, trimStage4_id cap _ h]

theorem trimPayloadAt_stop2 (cap : Nat) (s : TrimState)
    (h : resultBytes (trimStage2 cap (trimStage1 cap s)) ≤ cap) :
    trimPayloadAt cap s = trimStage2 cap (trimStage1 cap s) := by
  unfold trimPayloadAt
  rw [trimStage3_id cap _ h, trimStage4_id cap _ h]

theorem trimPayloadAt_stop3 (cap : Nat) (s : TrimState)
    (h : resultBytes (trimStage3 cap (trimStage2 cap (trimStage1 cap s))) ≤ cap) :
    trimPayloadAt cap s = trimStage3 cap (trimStage2 cap (trimStage1 cap s)) := by
  unfold trimPayloadAt
  rw [trimStage4_id cap _ h]

theorem trimStage4_entered (cap : Nat) (s : TrimState) (h : resultBytes s > cap) :
    ∃ k, (trimStage4 cap s).1.content = s.content.take (s.content.length - k) ∧
      (trimStage4 cap s).1.metaHits = s.metaHits.take (s.metaHits.length - k) ∧
      (trimStage4 cap s).1.meta = { s.meta with complete := some false } ∧
      (trimStage4 cap s).2 = true ∧
      k + 1 ≤ max s.content.length 1 ∧
      ((trimStage4 cap s).1.content.length ≤ 1 ∨
        resultBytes ⟨(trimStage4 cap s).1.content, (trimStage4 cap s).1.metaHits,
          s.meta⟩ ≤ cap) := by
  obtain ⟨k, hk, hkb, hkg⟩ :=
    dropLoop_spec cap s.meta s.content.length s.content s.metaHits (le_refl _)
  have hs4 : trimStage4 cap s
      = (⟨(dropLoop cap s.meta s.content s.metaHits).1,
          (dropLoop cap s.meta s.content s.metaHits).2,
          { s.meta with complete := some false }⟩, true) := by
    unfold trimStage4
    rw [if_pos h]
  refine ⟨k, ?_, ?_, ?_, ?_, hkb, ?_⟩
  · rw [hs4, hk]
  · rw [hs4, hk]
  · rw [hs4]
  · rw [hs4]
  · rw [hs4]
    dsimp only
    exact hkg

theorem resourceTextShort_blank (n : Nat) (b : Block) :
    resourceTextShort n (blankResource b) := by
  intro u mi t h
  cases b with
  | text t2 => simp [blankResource] at h
  | resource u2 mi2 t2 =>
    simp only [blankResource] at h
    cases h
    simp

theorem resourceTextShort_mono (n n2 : Nat) (b : Block) (h : n ≤ n2)
    (hb : resourceTextShort n b) : resourceTextShort n2 b := by
  intro u mi t ht
  exact le_trans (hb u mi t ht) h

theorem trimStage2_entered (cap : Nat) (s : TrimState) (h : resultBytes s > cap) :
    trimStage2 cap s = { s with
      content :=
        capLoop cap MIN_SNIPPET_CHAR_FLOOR s.metaHits s.meta []
          (capLoop cap SHRUNK_SNIPPET_CHAR_CAP s.metaHits s.meta [] s.content) } := by
  unfold trimStage2
  rw [if_pos h]

theorem trimStage3_entered (cap : Nat) (s : TrimState) (h : resultBytes s > cap) :
    trimStage3 cap s = { s with
      content := zeroLoop cap s.metaHits s.meta s.metaHits.length s.content } := by
  unfold trimStage3
  rw [if_pos h]

theorem trimStage1_id_short (cap : Nat) (s : TrimState)
    (h : s.content.length ≤ 1) : trimStage1 cap s = s := by
  unfold trimStage1
  split
  · split
    · rename_i heq
      exfalso
      have := congrArg List.length heq
      simp at this
      omega
    · rfl
  · rfl

theorem trimStage2_id_short (cap : Nat) (s : TrimState)
    (h : ∀ b ∈ s.content, resourceTextShort MIN_SNIPPET_CHAR_FLOOR b) :
    trimStage2 cap s = s := by
  unfold trimStage2
  split
  · have hid600 : ∀ b ∈ s.content, capBlock SHRUNK_SNIPPET_CHAR_CAP b = b := by
      intro b hb
      refine capBlock_id_of_le _ b ?_
      intro u mi t ht
      have := h b hb u mi t ht
      unfold MIN_SNIPPET_CHAR_FLOOR at this
      unfold SHRUNK_SNIPPET_CHAR_CAP
      omega
    have hid300 : ∀ b ∈ s.content, capBlock MIN_SNIPPET_CHAR_FLOOR b = b := by
      intro b hb
      exact capBlock_id_of_le _ b (h b hb)
    rw [capLoop_id cap SHRUNK_SNIPPET_CHAR_CAP s.metaHits s.meta s.content [] hid600]
    simp only [List.nil_append]
    rw [capLoop_id cap MIN_SNIPPET_CHAR_FLOOR s.metaHits s.meta s.content [] hid300]
    rfl
  · rfl

theorem trimStage3_id_short (cap : Nat) (s : TrimState)
    (h : s.content.length ≤ 2) : trimStage3 cap s = s := by
  unfold trimStage3
  split
  · rw [zeroLoop_id_of_short cap s.metaHits s.meta s.metaHits.length s.content h]
  · rfl

theorem trimStage4_id_fixed (cap : Nat) (s : TrimState)
    (h1 : s.content.length ≤ 1) (h2 : s.meta.complete = some false) :
    (trimStage4 cap s).1 = s := by
  unfold trimStage4
  split
  · dsimp only
    have hdrop : dropLoop cap s.meta s.content s.metaHits = (s.content, s.metaHits) := by
      rw [dropLoop]
      rw [if_neg]
      intro hc
      omega
    rw [hdrop, meta_complete_update_id s.meta h2]
  · rfl

set_option maxHeartbeats 1000000 in
theorem trimPayloadAt_idem (cap : Nat) (s : TrimState)
    (h : resultBytes (trimPayloadAt cap s) ≤ cap ∨
      (trimPayloadAt cap s).content.length ≤ 1) :
    trimPayloadAt cap (trimPayloadAt cap s) = trimPayloadAt cap s := by
  by_cases hover : resultBytes (trimPayloadAt cap s) ≤ cap
  · exact trimPayloadAt_of_le cap _ hover
  · push_neg at hover
    have hshort : (trimPayloadAt cap s).content.length ≤ 1 := by
      rcases h with h | h
      · omega
      · exact h
    set s1 := trimStage1 cap s with hs1
    set s2 := trimStage2 cap s1 with hs2def
    set s3 := trimStage3 cap s2 with hs3def
    set t := trimPayloadAt cap s with htdef
    have hdef : t = (trimStage4 cap s3).1 := rfl
    have h3 : resultBytes s3 > cap := by
      by_contra hc
      push_neg at hc
      have he := trimStage4_id cap s3 hc
      rw [hdef, he] at hover
      dsimp only at hover
      omega
    have h2 : resultBytes s2 > cap := by
      by_contra hc
      push_neg at hc
      have he := trimStage3_id cap s2 hc
      rw [hs3def, he] at h3
      omega
    have h1 : resultBytes s1 > cap := by
      by_contra hc
      push_neg at hc
      have he := trimStage2_id cap s1 hc
      rw [hs2def, he] at h2
      omega
    have hs2ent := trimStage2_entered cap s1 h1
    rw [← hs2def] at hs2ent
    have hshort2 : ∀ b ∈ s2.content, resourceTextShort MIN_SNIPPET_CHAR_FLOOR b := by
      have h2c := h2
      rw [hs2ent] at h2c
      have hfull := capLoop_over cap MIN_SNIPPET_CHAR_FLOOR s1.metaHits s1.meta
        (capLoop cap SHRUNK_SNIPPET_CHAR_CAP s1.metaHits s1.meta [] s1.content) []
        h2c
      intro b hb
      rw [hs2ent] at hb
      dsimp only at hb
      rw [hfull] at hb
      simp only [List.nil_append, List.mem_map] at hb
      obtain ⟨b0, _, hb0⟩ := hb
      intro u mi t2 ht
      refine capBlock_result_short MIN_SNIPPET_CHAR_FLOOR b0 u mi t2 ?_
      rw [hb0, ht]
    have hs3ent := trimStage3_entered cap s2 h2
    rw [← hs3def] at hs3ent
    have hshort3 : ∀ b ∈ s3.content, resourceTextShort MIN_SNIPPET_CHAR_FLOOR b := by
      intro b hb
      rw [hs3ent] at hb
      dsimp only at hb
      obtain ⟨p, hp⟩ := List.mem_iff_get?.mp hb
      obtain ⟨j, hj, _, hlow, hhigh, hmid⟩ := zeroLoop_spec cap s2.metaHits s2.meta
        s2.metaHits.length s2.content
      by_cases hp1 : p < j + 2
      · rw [hlow p hp1] at hp
        exact hshort2 b (List.mem_iff_get?.mpr ⟨p, hp⟩)
      · by_cases hp2 : s2.metaHits.length + 2 ≤ p
        · rw [hhigh p hp2] at hp
          exact hshort2 b (List.mem_iff_get?.mpr ⟨p, hp⟩)
        · rw [hmid p (by omega) (by omega)] at hp
          cases hb0 : s2.content.get? p with
          | none =>
            rw [hb0] at hp
            simp at hp
          | some b0 =>
            rw [hb0] at hp
            simp only [Option.map_some'] at hp
            cases hp
            exact resourceTextShort_blank _ b0
    obtain ⟨k, htc, _, htmeta, _, _, _⟩ := trimStage4_entered cap s3 h3
    rw [← hdef] at htc htmeta
    have hcomplete : t.meta.complete = some false := by
      rw [htmeta]
    have hshortT : ∀ b ∈ t.content, resourceTextShort MIN_SNIPPET_CHAR_FLOOR b := by
      intro b hb
      rw [htc] at hb
      exact hshort3 b (List.mem_of_mem_take hb)
    have hrun2 : trimPayloadAt cap t
        = (trimStage4 cap (trimStage3 cap (trimStage2 cap (trimStage1 cap t)))).1 :=
      rfl
    rw [hrun2, trimStage1_id_short cap t hshort,
      trimStage2_id_short cap t hshortT,
      trimStage3_id_short cap t (by omega),
      trimStage4_id_fixed cap t hshort hcomplete]

theorem natDigits_one_digit (n : Nat) (h : n < 10) : natDigits n = 1 := by
  rw [natDigits]
  rw [dif_pos h]

theorem intBytes_zero : intBytes 0 = 1 := by
  unfold intBytes
  rw [if_neg (by omega)]
  exact natDigits_one_digit _ (by norm_num)

theorem intBytes_one : intBytes 1 = 1 := by
  unfold intBytes
  rw [if_neg (by omega)]
  exact natDigits_one_digit _ (by norm_num)

theorem jsonStrBytes_nil : jsonStrBytes [] = 0 := rfl

theorem jarrBytes_one (v : JVal) : jarrBytes [v] = jsonSizeBytes v := rfl

theorem jarrBytes_two (v w : JVal) :
    jarrBytes [v, w] = jsonSizeBytes v + 1 + jsonSizeBytes w := rfl

theorem jarrBytes_three (v w x : JVal) :
    jarrBytes [v, w, x]
      = jsonSizeBytes v + 1 + (jsonSizeBytes w + 1 + jsonSizeBytes x) := rfl

theorem jarrBytes_four (v w x y : JVal) :
    jarrBytes [v, w, x, y]
      = jsonSizeBytes v + 1 + (jsonSizeBytes w + 1
          + (jsonSizeBytes x + 1 + jsonSizeBytes y)) := rfl

theorem jobjBytes_two (a b : JStr × JVal) :
    jobjBytes [a, b]
      = 2 + jsonStrBytes a.1 + 1 + jsonSizeBytes a.2 + 1
        + (2 + jsonStrBytes b.1 + 1 + jsonSizeBytes b.2) := rfl

theorem jobjBytes_six (a b c d e f : JStr × JVal) :
    jobjBytes [a, b, c, d, e, f]
      = 2 + jsonStrBytes a.1 + 1 + jsonSizeBytes a.2 + 1
        + (2 + jsonStrBytes b.1 + 1 + jsonSizeBytes b.2 + 1
        + (2 + jsonStrBytes c.1 + 1 + jsonSizeBytes c.2 + 1
        + (2 + jsonStrBytes d.1 + 1 + jsonSizeBytes d.2 + 1
        + (2 + jsonStrBytes e.1 + 1 + jsonSizeBytes e.2 + 1
        + (2 + jsonStrBytes f.1 + 1 + jsonSizeBytes f.2))))) := rfl

theorem nonSurrogate_a : nonSurrogate 97 := ⟨by decide, by decide⟩

theorem repl97_sf (n : Nat) : surrogateFree (List.replicate n 97) := by
  intro c hc
  rw [List.eq_of_mem_replicate hc]
  exact nonSurrogate_a

theorem repl97_bytes (n : Nat) : jsonStrBytes (List.replicate n 97) = n := by
  rw [jsonStrBytes_replicate_ascii n 97 nonSurrogate_a]
  have h : escapedUnitBytes 97 = 1 := by decide
  rw [h, Nat.mul_one]

theorem repl97_escSum (n : Nat) :
    ((List.replicate n 97).map escapedUnitBytes).sum = n := by
  rw [← jsonStrBytes_sf _ (repl97_sf n), repl97_bytes]

theorem resultBytes_nil_meta0 : resultBytes ⟨[], [], cexMeta⟩ = 69 := by
  rw [resultBytes_formula]
  have h0 : jarrBytes (([] : List Block).map blockJVal) = 0 := rfl
  have h1 : metaJVal [] cexMeta
      = .jobj [(ascii "hits", .jarr []), (ascii "mcp_latency_ms", .jnum 0)] := rfl
  rw [h0, h1, jsonSizeBytes_jobj, jobjBytes_two]
  dsimp only
  have h2 : jsonStrBytes (ascii "hits") = 4 := by decide
  have h3 : jsonSizeBytes (JVal.jarr []) = 2 := rfl
  have h4 : jsonStrBytes (ascii "mcp_latency_ms") = 14 := by decide
  have h5 : jsonSizeBytes (JVal.jnum 0) = intBytes 0 := rfl
  rw [h2, h3, h4, h5, intBytes_zero]

theorem resultBytes_nil_metaF : resultBytes ⟨[], [], cexMetaF⟩ = 86 := by
  rw [resultBytes_formula]
  have h0 : jarrBytes (([] : List Block).map blockJVal) = 0 := rfl
  have h1 : metaJVal [] cexMetaF
      = .jobj [(ascii "hits", .jarr []), (ascii "complete", .jbool false),
          (ascii "mcp_latency_ms", .jnum 0)] := rfl
  rw [h0, h1, jsonSizeBytes_jobj]
  have hsh : jobjBytes [(ascii "hits", JVal.jarr []),
      (ascii "complete", JVal.jbool false),
      (ascii "mcp_latency_ms", JVal.jnum 0)]
      = 2 + jsonStrBytes (ascii "hits") + 1 + jsonSizeBytes (JVal.jarr []) + 1
        + (2 + jsonStrBytes (ascii "complete") + 1
            + jsonSizeBytes (JVal.jbool false) + 1
        + (2 + jsonStrBytes (ascii "mcp_latency_ms") + 1
            + jsonSizeBytes (JVal.jnum 0))) := rfl
  rw [hsh]
  have h2 : jsonStrBytes (ascii "hits") = 4 := by decide
  have h3 : jsonSizeBytes (JVal.jarr []) = 2 := rfl
  have h4 : jsonStrBytes (ascii "complete") = 8 := by decide
  have h5 : jsonSizeBytes (JVal.jbool false) = 5 := rfl
  have h6 : jsonStrBytes (ascii "mcp_latency_ms") = 14 := by decide
  have h7 : jsonSizeBytes (JVal.jnum 0) = intBytes 0 := rfl
  rw [h2, h3, h4, h5, h6, h7, intBytes_zero]

theorem metaHit_hit0_bytes : jsonSizeBytes (metaHitJVal hit0) = 73 := by
  have h1 : metaHitJVal hit0
      = .jobj [(ascii "chunk_id", .jstr []), (ascii "repo", .jstr []),
          (ascii "path", .jstr []), (ascii "start_line", .jnum 1),
          (ascii "end_line", .jnum 1), (ascii "score", .jnum 1)] := rfl
  rw [h1, jsonSizeBytes_jobj, jobjBytes_six]
  dsimp only
  have k1 : jsonStrBytes (ascii "chunk_id") = 8 := by decide
  have k2 : jsonStrBytes (ascii "repo") = 4 := by decide
  have k3 : jsonStrBytes (ascii "path") = 4 := by decide
  have k4 : jsonStrBytes (ascii "start_line") = 10 := by decide
  have k5 : jsonStrBytes (ascii "end_line") = 8 := by decide
  have k6 : jsonStrBytes (ascii "score") = 5 := by decide
  have v1 : jsonSizeBytes (JVal.jstr []) = 2 := rfl
  have v2 : jsonSizeBytes (JVal.jnum 1) = intBytes 1 := rfl
  simp only [k1, k2, k3, k4, k5, k6, v1, v2, intBytes_one]

theorem resultBytes_nil_hit1 : resultBytes ⟨[], [hit0], cexMeta⟩ = 142 := by
  rw [resultBytes_eq_meta]
  simp only [List.map_cons, List.map_nil]
  rw [jarrBytes_one, metaHit_hit0_bytes, resultBytes_nil_meta0]

theorem resultBytes_nil_hit1F : resultBytes ⟨[], [hit0], cexMetaF⟩ = 159 := by
  rw [resultBytes_eq_meta]
  simp only [List.map_cons, List.map_nil]
  rw [jarrBytes_one, metaHit_hit0_bytes, resultBytes_nil_metaF]

theorem resultBytes_nil_hit2 : resultBytes ⟨[], [hit0, hit0], cexMeta⟩ = 216 := by
  rw [resultBytes_eq_meta]
  simp only [List.map_cons, List.map_nil]
  rw [jarrBytes_two, metaHit_hit0_bytes, resultBytes_nil_meta0]

theorem trickyT_len : trickyT.length = 301 := by
  unfold trickyT
  simp only [List.length_append, List.length_replicate, List.length_cons,
    List.length_nil]

theorem trickyT_bytes : jsonStrBytes trickyT = 303 := by
  unfold trickyT
  rw [jsonStrBytes_sf_append _ _ (repl97_sf 299), repl97_escSum]
  have h : jsonStrBytes [55357, 56832] = 4 := by decide
  rw [h]

theorem trickyT_take : trickyT.take 300 = List.replicate 299 97 ++ [55357] := by
  unfold trickyT
  rw [List.take_append_eq_append_take, List.take_replicate, List.length_replicate]
  congr 1

theorem trickyT_take_bytes : jsonStrBytes (trickyT.take 300) = 305 := by
  rw [trickyT_take, jsonStrBytes_sf_append _ _ (repl97_sf 299), repl97_escSum]
  have h : jsonStrBytes [55357] = 6 := by decide
  rw [h]

theorem bigT_bytes : jsonStrBytes bigT = 72000 := repl97_bytes 72000

theorem bigU_bytes : jsonStrBytes bigU = 71600 := repl97_bytes 71600

theorem sz_stage4Cex : resultBytes stage4CexState = 72094 := by
  show resultBytes ⟨[Block.text bigT], [], cexMeta⟩ = 72094
  have h1 : jarrBytes ([Block.text bigT].map blockJVal) = 72025 := by
    simp only [List.map_cons, List.map_nil]
    rw [jarrBytes_one, blockBytes_text, bigT_bytes]
  rw [resultBytes_eq_content, h1, resultBytes_nil_meta0]

theorem sz_stage4CexF : resultBytes ⟨[Block.text bigT], [], cexMetaF⟩ = 72111 := by
  have h1 : jarrBytes ([Block.text bigT].map blockJVal) = 72025 := by
    simp only [List.map_cons, List.map_nil]
    rw [jarrBytes_one, blockBytes_text, bigT_bytes]
  rw [resultBytes_eq_content, h1, resultBytes_nil_metaF]

theorem stage4Cex_result :
    trimStage4 CAP_BYTES stage4CexState = (⟨[Block.text bigT], [], cexMetaF⟩, true) := by
  unfold trimStage4
  rw [if_pos (by rw [sz_stage4Cex]; decide)]
  have hd : dropLoop CAP_BYTES stage4CexState.meta stage4CexState.content
      stage4CexState.metaHits = (stage4CexState.content, stage4CexState.metaHits) := by
    rw [dropLoop, if_neg]
    intro hc
    have h1 : stage4CexState.content.length = 1 := rfl
    omega
  rw [hd]
  rfl

theorem emptyText_block_bytes : jsonSizeBytes (blockJVal (Block.text [])) = 25 := by
  rw [blockBytes_text, jsonStrBytes_nil]

theorem stage2Cex_big_block_bytes :
    jsonSizeBytes (blockJVal (Block.resource bigU [] trickyT)) = 71968 := by
  rw [blockBytes_resource, bigU_bytes, trickyT_bytes, jsonStrBytes_nil]

theorem stage2Cex_cut_block_bytes :
    jsonSizeBytes (blockJVal (Block.resource bigU [] (trickyT.take 300))) = 71970 := by
  rw [blockBytes_resource, bigU_bytes, trickyT_take_bytes, jsonStrBytes_nil]

theorem sz_stage2Cex : resultBytes stage2CexState = 72162 := by
  show resultBytes ⟨[Block.text [], Block.text [],
      Block.resource bigU [] trickyT], [hit0], cexMeta⟩ = 72162
  have h1 : jarrBytes ([Block.text [], Block.text [],
      Block.resource bigU [] trickyT].map blockJVal) = 72020 := by
    simp only [List.map_cons, List.map_nil]
    rw [jarrBytes_three, emptyText_block_bytes, stage2Cex_big_block_bytes]
  rw [resultBytes_eq_content, h1, resultBytes_nil_hit1]

theorem sz_stage2CexAfter :
    resultBytes ⟨[Block.text [], Block.text [],
        Block.resource bigU [] (trickyT.take 300)], [hit0], cexMeta⟩ = 72164 := by
  have h1 : jarrBytes ([Block.text [], Block.text [],
      Block.resource bigU [] (trickyT.take 300)].map blockJVal) = 72022 := by
    simp only [List.map_cons, List.map_nil]
    rw [jarrBytes_three, emptyText_block_bytes, stage2Cex_cut_block_bytes]
  rw [resultBytes_eq_content, h1, resultBytes_nil_hit1]

theorem stage2Cex_result :
    trimStage2 CAP_BYTES stage2CexState
      = ⟨[Block.text [], Block.text [],
          Block.resource bigU [] (trickyT.take 300)], [hit0], cexMeta⟩ := by
  have hover : resultBytes stage2CexState > CAP_BYTES := by
    rw [sz_stage2Cex]; decide
  have hov : resultBytes ⟨[Block.text [], Block.text [],
      Block.resource bigU [] trickyT], [hit0], cexMeta⟩ > CAP_BYTES := hover
  have hpc : stage2CexState.content
      = [Block.text [], Block.text [], Block.resource bigU [] trickyT] := rfl
  have hpm : stage2CexState.metaHits = [hit0] := rfl
  have hpe : stage2CexState.meta = cexMeta := rfl
  rw [trimStage2_entered _ _ hover, hpc, hpm, hpe]
  have hid1 : ∀ b ∈ ([Block.text [], Block.text [],
      Block.resource bigU [] trickyT] : List Block),
      capBlock SHRUNK_SNIPPET_CHAR_CAP b = b := by
    intro b hb
    simp only [List.mem_cons, List.not_mem_nil, or_false] at hb
    rcases hb with rfl | rfl | rfl
    · rfl
    · rfl
    · refine capBlock_id_of_le _ _ ?_
      intro u mi t ht
      cases ht
      rw [trickyT_len]
      decide
  rw [capLoop_id CAP_BYTES SHRUNK_SNIPPET_CHAR_CAP [hit0] cexMeta _ [] hid1,
    List.nil_append]
  have hcb1 : capBlock MIN_SNIPPET_CHAR_FLOOR (Block.text []) = Block.text [] := rfl
  have hcb3 : capBlock MIN_SNIPPET_CHAR_FLOOR (Block.resource bigU [] trickyT)
      = Block.resource bigU [] (trickyT.take 300) := by
    simp only [capBlock]
    rw [if_pos (by rw [trickyT_len]; decide)]
    rfl
  rw [capLoop]
  rw [if_pos (by simp only [List.nil_append]; exact hov)]
  rw [hcb1]
  simp only [List.nil_append]
  rw [capLoop]
  rw [if_pos (by simp only [List.cons_append, List.nil_append]; exact hov)]
  rw [hcb1]
  simp only [List.cons_append, List.nil_append]
  rw [capLoop]
  rw [if_pos (by simp only [List.cons_append, List.nil_append]; exact hov)]
  rw [hcb3]
  rw [capLoop]
  simp only [List.cons_append, List.nil_append]

theorem trimStage1_entered_text (cap : Nat) (s : TrimState) (b0 : Block) (t : JStr)
    (rest : List Block) (hc : s.content = b0 :: Block.text t :: rest)
    (hover : resultBytes s > cap) :
    trimStage1 cap s = { s with content := b0 :: Block.text (promptLoop cap
      (fun u => resultBytes { s with content := b0 :: Block.text u :: rest }) t)
      :: rest } := by
  unfold trimStage1
  rw [if_pos hover]
  split
  · rename_i b0x tx restx hcx
    rw [hc] at hcx
    injection hcx with h1 h2
    injection h2 with h2a h2b
    injection h2a with h2c
    subst h1
    subst h2b
    subst h2c
    rfl
  · rename_i hno
    exact absurd hc (hno b0 t rest)

theorem zeroLoop_id_of_blank (cap : Nat) (mh : List MetaHit) (m : MetaFields)
    (content : List Block) (hbl : ∀ b ∈ content, blankResource b = b) :
    ∀ i, zeroLoop cap mh m i content = content := by
  intro i
  induction i with
  | zero => rfl
  | succ i ih =>
    rw [zeroLoop]
    split
    · have hM : (match content.get? (i + 2) with
          | some (.resource u mm _) => content.set (i + 2) (.resource u mm [])
          | _ => content) = content := by
        obtain ⟨hstep1, hstep2, _⟩ := zeroLoop_step content i
        apply List.ext_get?
        intro p
        by_cases hp : p = i + 2
        · subst hp
          rw [hstep1]
          cases hg : content.get? (i + 2) with
          | none => rfl
          | some b =>
            have hmem : b ∈ content := List.get?_mem hg
            simp only [Option.map_some']
            rw [hbl b hmem]
        · exact hstep2 p hp
      rw [hM]
      exact ih
    · rfl

theorem idemU1_bytes : jsonStrBytes idemU1 = 71421 := repl97_bytes 71421

theorem idemU2_bytes : jsonStrBytes idemU2 = 100 := repl97_bytes 100

theorem idemR1_bytes :
    jsonSizeBytes (blockJVal (Block.resource idemU1 [] [])) = 71486 := by
  rw [blockBytes_resource, idemU1_bytes, jsonStrBytes_nil]

theorem idemR2_bytes :
    jsonSizeBytes (blockJVal (Block.resource idemU2 [] [])) = 165 := by
  rw [blockBytes_resource, idemU2_bytes, jsonStrBytes_nil]

theorem szIdem : resultBytes idemCexState = 71920 := by
  show resultBytes ⟨[Block.text [], Block.text [], Block.resource idemU1 [] [],
      Block.resource idemU2 [] []], [hit0, hit0], cexMeta⟩ = 71920
  have h1 : jarrBytes ([Block.text [], Block.text [], Block.resource idemU1 [] [],
      Block.resource idemU2 [] []].map blockJVal) = 71704 := by
    simp only [List.map_cons, List.map_nil]
    rw [jarrBytes_four, emptyText_block_bytes, idemR1_bytes, idemR2_bytes]
  rw [resultBytes_eq_content, h1, resultBytes_nil_hit2]

theorem szIdem3 : resultBytes ⟨[Block.text [], Block.text [],
    Block.resource idemU1 [] []], [hit0], cexMeta⟩ = 71680 := by
  have h1 : jarrBytes ([Block.text [], Block.text [],
      Block.resource idemU1 [] []].map blockJVal) = 71538 := by
    simp only [List.map_cons, List.map_nil]
    rw [jarrBytes_three, emptyText_block_bytes, idemR1_bytes]
  rw [resultBytes_eq_content, h1, resultBytes_nil_hit1]

theorem szIdem3F : resultBytes ⟨[Block.text [], Block.text [],
    Block.resource idemU1 [] []], [hit0], cexMetaF⟩ = 71697 := by
  have h1 : jarrBytes ([Block.text [], Block.text [],
      Block.resource idemU1 [] []].map blockJVal) = 71538 := by
    simp only [List.map_cons, List.map_nil]
    rw [jarrBytes_three, emptyText_block_bytes, idemR1_bytes]
  rw [resultBytes_eq_content, h1, resultBytes_nil_hit1F]

theorem szIdem2F : resultBytes ⟨[Block.text [], Block.text []],
    [], cexMetaF⟩ = 137 := by
  have h1 : jarrBytes ([Block.text [], Block.text []].map blockJVal) = 51 := by
    simp only [List.map_cons, List.map_nil]
    rw [jarrBytes_two, emptyText_block_bytes]
  rw [resultBytes_eq_content, h1, resultBytes_nil_metaF]

theorem idemRun1 : trimPayloadAt CAP_BYTES idemCexState
    = ⟨[Block.text [], Block.text [], Block.resource idemU1 [] []],
        [hit0], cexMetaF⟩ := by
  have hover : resultBytes idemCexState > CAP_BYTES := by
    rw [szIdem]; decide
  have hovLit : resultBytes ⟨[Block.text [], Block.text [],
      Block.resource idemU1 [] [], Block.resource idemU2 [] []],
      [hit0, hit0], cexMeta⟩ > CAP_BYTES := hover
  have hpc : idemCexState.content = [Block.text [], Block.text [],
      Block.resource idemU1 [] [], Block.resource idemU2 [] []] := rfl
  have hpm : idemCexState.metaHits = [hit0, hit0] := rfl
  have hpe : idemCexState.meta = cexMeta := rfl
  have h1 : trimStage1 CAP_BYTES idemCexState = idemCexState := by
    rw [trimStage1_entered_text CAP_BYTES idemCexState (Block.text []) []
      [Block.resource idemU1 [] [], Block.resource idemU2 [] []] rfl hover]
    rw [promptLoop]
    rw [if_neg (by simp)]
    rfl
  have h2 : trimStage2 CAP_BYTES idemCexState = idemCexState := by
    apply trimStage2_id_short
    intro b hb
    rw [hpc] at hb
    simp only [List.mem_cons, List.not_mem_nil, or_false] at hb
    rcases hb with rfl | rfl | rfl | rfl
    · intro u mi t ht; cases ht
    · intro u mi t ht; cases ht
    · intro u mi t ht; cases ht; decide
    · intro u mi t ht; cases ht; decide
  have h3 : trimStage3 CAP_BYTES idemCexState = idemCexState := by
    rw [trimStage3_entered _ _ hover]
    have hbl : ∀ b ∈ idemCexState.content, blankResource b = b := by
      intro b hb
      rw [hpc] at hb
      simp only [List.mem_cons, List.not_mem_nil, or_false] at hb
      rcases hb with rfl | rfl | rfl | rfl <;> rfl
    rw [zeroLoop_id_of_blank CAP_BYTES idemCexState.metaHits idemCexState.meta
      idemCexState.content hbl idemCexState.metaHits.length]
  have hd : dropLoop CAP_BYTES cexMeta [Block.text [], Block.text [],
      Block.resource idemU1 [] [], Block.resource idemU2 [] []] [hit0, hit0]
      = ([Block.text [], Block.text [], Block.resource idemU1 [] []], [hit0]) := by
    rw [dropLoop]
    rw [if_pos ⟨by decide, hovLit⟩]
    rw [show ([Block.text [], Block.text [], Block.resource idemU1 [] [],
        Block.resource idemU2 [] []] : List Block).dropLast
        = [Block.text [], Block.text [], Block.resource idemU1 [] []] from rfl]
    rw [show ([hit0, hit0] : List MetaHit).dropLast = [hit0] from rfl]
    rw [dropLoop]
    rw [if_neg]
    intro hcon
    have hsz := hcon.2
    rw [szIdem3] at hsz
    have hCAP : CAP_BYTES = 71680 := rfl
    omega
  have h4 : (trimStage4 CAP_BYTES idemCexState).1
      = ⟨[Block.text [], Block.text [], Block.resource idemU1 [] []],
          [hit0], cexMetaF⟩ := by
    unfold trimStage4
    rw [if_pos hover]
    dsimp only
    rw [hpc, hpm, hpe, hd]
    rfl
  rw [trimPayloadAt]
  rw [h1, h2, h3]
  exact h4

theorem idemRun2 :
    trimPayloadAt CAP_BYTES ⟨[Block.text [], Block.text [],
        Block.resource idemU1 [] []], [hit0], cexMetaF⟩
      = ⟨[Block.text [], Block.text []], [], cexMetaF⟩ := by
  have hover : resultBytes ⟨[Block.text [], Block.text [],
      Block.resource idemU1 [] []], [hit0], cexMetaF⟩ > CAP_BYTES := by
    rw [szIdem3F]; decide
  have h1 : trimStage1 CAP_BYTES ⟨[Block.text [], Block.text [],
      Block.resource idemU1 [] []], [hit0], cexMetaF⟩
      = ⟨[Block.text [], Block.text [], Block.resource idemU1 [] []],
          [hit0], cexMetaF⟩ := by
    rw [trimStage1_entered_text CAP_BYTES _ (Block.text []) []
      [Block.resource idemU1 [] []] rfl hover]
    rw [promptLoop]
    rw [if_neg (by simp)]
  have h2 : trimStage2 CAP_BYTES ⟨[Block.text [], Block.text [],
      Block.resource idemU1 [] []], [hit0], cexMetaF⟩
      = ⟨[Block.text [], Block.text [], Block.resource idemU1 [] []],
          [hit0], cexMetaF⟩ := by
    apply trimStage2_id_short
    intro b hb
    simp only [List.mem_cons, List.not_mem_nil, or_false] at hb
    rcases hb with rfl | rfl | rfl
    · intro u mi t ht; cases ht
    · intro u mi t ht; cases ht
    · intro u mi t ht; cases ht; decide
  have h3 : trimStage3 CAP_BYTES ⟨[Block.text [], Block.text [],
      Block.resource idemU1 [] []], [hit0], cexMetaF⟩
      = ⟨[Block.text [], Block.text [], Block.resource idemU1 [] []],
          [hit0], cexMetaF⟩ := by
    rw [trimStage3_entered _ _ hover]
    have hbl : ∀ b ∈ ([Block.text [], Block.text [],
        Block.resource idemU1 [] []] : List Block), blankResource b = b := by
      intro b hb
      simp only [List.mem_cons, List.not_mem_nil, or_false] at hb
      rcases hb with rfl | rfl | rfl <;> rfl
    rw [zeroLoop_id_of_blank CAP_BYTES _ _ _ hbl _]
  have hd : dropLoop CAP_BYTES cexMetaF [Block.text [], Block.text [],
      Block.resource idemU1 [] []] [hit0]
      = ([Block.text [], Block.text []], ([] : List MetaHit)) := by
    rw [dropLoop]
    rw [if_pos ⟨by decide, hover⟩]
    rw [show ([Block.text [], Block.text [],
        Block.resource idemU1 [] []] : List Block).dropLast
        = [Block.text [], Block.text []] from rfl]
    rw [show ([hit0] : List MetaHit).dropLast = ([] : List MetaHit) from rfl]
    rw [dropLoop]
    rw [if_neg]
    intro hcon
    have hsz := hcon.2
    rw [szIdem2F] at hsz
    have hCAP : CAP_BYTES = 71680 := rfl
    omega
  have h4 : (trimStage4 CAP_BYTES ⟨[Block.text [], Block.text [],
      Block.resource idemU1 [] []], [hit0], cexMetaF⟩).1
      = ⟨[Block.text [], Block.text []], [], cexMetaF⟩ := by
    unfold trimStage4
    rw [if_pos hover]
    dsimp only
    rw [hd]
    rfl
  rw [trimPayloadAt]
  rw [h1, h2, h3]
  exact h4

theorem capLoop_head (cap n : Nat) (mh : List MetaHit) (m : MetaFields) :
    ∀ rest pre, (capLoop cap n mh m pre rest).length = pre.length + rest.length ∧
      (∀ t0, (pre ++ rest).get? 0 = some (Block.text t0) →
        (capLoop cap n mh m pre rest).get? 0 = some (Block.text t0)) := by
  intro rest
  induction rest with
  | nil =>
    intro pre
    rw [capLoop]
    exact ⟨by simp, fun t0 h => by simpa using h⟩
  | cons b rest2 ih =>
    intro pre
    rw [capLoop]
    split
    · obtain ⟨ihlen, ihhead⟩ := ih (pre ++ [capBlock n b])
      refine ⟨by rw [ihlen]; simp; omega, ?_⟩
      intro t0 h0
      apply ihhead
      cases pre with
      | nil =>
        simp only [List.nil_append] at h0 ⊢
        have hb : b = Block.text t0 := by simpa using h0
        subst hb
        rw [show capBlock n (Block.text t0) = Block.text t0 from rfl]
        rfl
      | cons q pre2 =>
        simp only [List.cons_append] at h0 ⊢
        simpa using h0
    · refine ⟨by simp, fun t0 h => h⟩

theorem trimStage1_basic (cap : Nat) (s : TrimState) :
    (trimStage1 cap s).metaHits = s.metaHits ∧ (trimStage1 cap s).meta = s.meta ∧
    (trimStage1 cap s).content.length = s.content.length ∧
    (trimStage1 cap s).content.get? 0 = s.content.get? 0 := by
  unfold trimStage1
  split
  · split
    · rename_i b0 t rest hc
      refine ⟨rfl, rfl, ?_, ?_⟩
      · dsimp only
        rw [hc]
        simp
      · dsimp only
        rw [hc]
        rfl
    · exact ⟨rfl, rfl, rfl, rfl⟩
  · exact ⟨rfl, rfl, rfl, rfl⟩

theorem trimStage2_basic (cap : Nat) (s : TrimState) :
    (trimStage2 cap s).metaHits = s.metaHits ∧ (trimStage2 cap s).meta = s.meta ∧
    (trimStage2 cap s).content.length = s.content.length ∧
    ∀ t0, s.content.get? 0 = some (Block.text t0) →
      (trimStage2 cap s).content.get? 0 = some (Block.text t0) := by
  unfold trimStage2
  split
  · obtain ⟨l1, h1⟩ := capLoop_head cap SHRUNK_SNIPPET_CHAR_CAP s.metaHits s.meta
      s.content []
    obtain ⟨l2, h2⟩ := capLoop_head cap MIN_SNIPPET_CHAR_FLOOR s.metaHits s.meta
      (capLoop cap SHRUNK_SNIPPET_CHAR_CAP s.metaHits s.meta [] s.content) []
    simp only [List.length_nil, List.nil_append, Nat.zero_add] at l1 l2 h1 h2
    refine ⟨rfl, rfl, ?_, ?_⟩
    · dsimp only
      rw [l2, l1]
    · intro t0 h0
      dsimp only
      exact h2 t0 (h1 t0 h0)
  · exact ⟨rfl, rfl, rfl, fun t0 h => h⟩

theorem trimStage3_basic (cap : Nat) (s : TrimState) :
    (trimStage3 cap s).metaHits = s.metaHits ∧ (trimStage3 cap s).meta = s.meta ∧
    (trimStage3 cap s).content.length = s.content.length ∧
    (trimStage3 cap s).content.get? 0 = s.content.get? 0 := by
  unfold trimStage3
  split
  · obtain ⟨j, hj, hlen, hlow, hhigh, hmid⟩ := zeroLoop_spec cap s.metaHits s.meta
      s.metaHits.length s.content
    exact ⟨rfl, rfl, hlen, hlow 0 (by omega)⟩
  · exact ⟨rfl, rfl, rfl, rfl⟩

theorem take_one_of_get0 {α : Type} (l : List α) (a : α) (h : l.get? 0 = some a) :
    l.take 1 = [a] := by
  cases l with
  | nil => simp at h
  | cons x xs =>
    simp only [List.get?] at h
    injection h with h1
    rw [h1]
    rfl

/-- C6: the trimmer applies its stages strictly in order, each later
stage a no-op once the serialized size fits the budget after an earlier
stage; a response already within budget is returned unchanged; stage 1,
when entered on a content list whose second block is the prompt-ready
text block, replaces that text by one of its prefixes (the iterated
90%-cuts) and stops only when the size fits or the text is empty; stage
2, when entered, is the 600-character-cap pass followed by the
300-character-floor pass (each pass re-measuring per block and stopping
early once the size fits, per `capLoop`), and if the size still exceeds
the budget afterwards every resource text has been cut to the
300-character floor; the floor cap is smaller than the upper cap. -/
theorem trim_stage_order_and_guards (cap : Nat) (s : TrimState) :
    (resultBytes s ≤ cap → trimPayloadAt cap s = s) ∧
    (resultBytes (trimStage1 cap s) ≤ cap →
      trimPayloadAt cap s = trimStage1 cap s) ∧
    (resultBytes (trimStage2 cap (trimStage1 cap s)) ≤ cap →
      trimPayloadAt cap s = trimStage2 cap (trimStage1 cap s)) ∧
    (resultBytes (trimStage3 cap (trimStage2 cap (trimStage1 cap s))) ≤ cap →
      trimPayloadAt cap s = trimStage3 cap (trimStage2 cap (trimStage1 cap s))) ∧
    (∀ b0 t rest, s.content = b0 :: Block.text t :: rest →
      resultBytes s > cap →
      ∃ k, trimStage1 cap s
          = { s with content := b0 :: Block.text (t.take k) :: rest } ∧
        (resultBytes (trimStage1 cap s) ≤ cap ∨ t.take k = [])) ∧
    (resultBytes s > cap →
      trimStage2 cap s
        = { s with
            content := capLoop cap MIN_SNIPPET_CHAR_FLOOR s.metaHits s.meta []
              (capLoop cap SHRUNK_SNIPPET_CHAR_CAP s.metaHits s.meta []
                s.content) }) ∧
    (resultBytes (trimStage2 cap s) > cap →
      ∀ b ∈ (trimStage2 cap s).content,
        resourceTextShort MIN_SNIPPET_CHAR_FLOOR b) ∧
    MIN_SNIPPET_CHAR_FLOOR < SHRUNK_SNIPPET_CHAR_CAP := by
  refine ⟨trimPayloadAt_of_le cap s, trimPayloadAt_stop1 cap s,
    trimPayloadAt_stop2 cap s, trimPayloadAt_stop3 cap s, ?_,
    trimStage2_entered cap s, ?_, by decide⟩
  · intro b0 t rest hc hover
    obtain ⟨k, hk⟩ := promptLoop_take cap
      (fun u => resultBytes { s with content := b0 :: Block.text u :: rest })
      t.length t (le_refl _)
    have hstage := trimStage1_entered_text cap s b0 t rest hc hover
    refine ⟨k, ?_, ?_⟩
    · rw [hstage, hk]
    · rcases promptLoop_cases cap
        (fun u => resultBytes { s with content := b0 :: Block.text u :: rest })
        t.length t (le_refl _) with hfit | hemp | ⟨heq, hng⟩
      · left
        rw [hstage]
        exact hfit
      · right
        rw [hk] at hemp
        exact hemp
      · right
        have hst : ({ s with content := b0 :: Block.text t :: rest } : TrimState)
            = s := by
          rw [← hc]
        have hszt : resultBytes { s with content := b0 :: Block.text t :: rest }
            > cap := by
          rw [hst]; exact hover
        have ht0 : t.length = 0 := by
          by_contra hl
          exact hng ⟨by omega, hszt⟩
        have ht : t = [] := List.length_eq_zero.mp ht0
        subst ht
        simp
  · intro hover2 b hb
    have hs : resultBytes s > cap := by
      by_contra hcc
      push_neg at hcc
      rw [trimStage2_id cap s hcc] at hover2
      omega
    have hent := trimStage2_entered cap s hs
    have h2c := hover2
    rw [hent] at h2c
    have hfull := capLoop_over cap MIN_SNIPPET_CHAR_FLOOR s.metaHits s.meta
      (capLoop cap SHRUNK_SNIPPET_CHAR_CAP s.metaHits s.meta [] s.content) [] h2c
    rw [hent] at hb
    dsimp only at hb
    rw [hfull] at hb
    simp only [List.nil_append, List.mem_map] at hb
    obtain ⟨b0, _, hb0⟩ := hb
    intro u mi t2 ht
    refine capBlock_result_short MIN_SNIPPET_CHAR_FLOOR b0 u mi t2 ?_
    rw [hb0, ht]

/-- Witness for C6: a 69-byte response is returned unchanged at budget
100, and on an over-budget response whose prompt-ready block holds
`"ab"` stage 1 cuts that text to a prefix, stopping only at the empty
text since the budget 0 can never be met. -/
theorem trim_stage_order_and_guards_witness :
    trimPayloadAt 100 ⟨[], [], cexMeta⟩ = ⟨[], [], cexMeta⟩ ∧
    (∃ k, trimStage1 0 ⟨[Block.text [], Block.text [97, 98]], [], cexMeta⟩
        = { (⟨[Block.text [], Block.text [97, 98]], [], cexMeta⟩ : TrimState) with
            content := Block.text [] :: Block.text (([97, 98] : JStr).take k) :: [] } ∧
        (resultBytes (trimStage1 0 ⟨[Block.text [], Block.text [97, 98]], [],
            cexMeta⟩) ≤ 0 ∨
          ([97, 98] : JStr).take k = [])) := by
  constructor
  · exact (trim_stage_order_and_guards 100 _).1 (by rw [resultBytes_nil_meta0]; omega)
  · exact (trim_stage_order_and_guards 0 _).2.2.2.2.1 (Block.text []) [97, 98] []
      rfl (resultBytes_pos _)

/-- C7: stage 3 never removes a block — it only replaces the texts of
resource blocks in a backward-contiguous range of hit positions by the
empty string (`blankResource`), leaving every block below and above the
range untouched; stage 4, on an aligned state, pops content blocks and
`metaHits` entries in lockstep from the end, never dropping below one
block, exiting only when one block remains or the size fits, and
preserving both the positional pairing `content[2+i] ↔ metaHits[i]` and
the alignment `metaHits.length + 2 = content.length` for the survivors;
and whenever stage 4 drops a block the completeness flag is set to
`false` and the warning log entry is emitted. -/
theorem trim_stage34_pairing (cap : Nat) (s : TrimState)
    (halign : s.metaHits.length + 2 = s.content.length) :
    ((trimStage3 cap s).content.length = s.content.length) ∧
    (∃ j, j ≤ s.metaHits.length ∧
      (∀ p, p < j + 2 → (trimStage3 cap s).content.get? p = s.content.get? p) ∧
      (∀ p, j + 2 ≤ p → p < s.metaHits.length + 2 →
        (trimStage3 cap s).content.get? p = (s.content.get? p).map blankResource) ∧
      (∀ p, s.metaHits.length + 2 ≤ p →
        (trimStage3 cap s).content.get? p = s.content.get? p)) ∧
    (resultBytes s > cap → ∃ k,
      (trimStage4 cap s).1.content = s.content.take (s.content.length - k) ∧
      (trimStage4 cap s).1.metaHits = s.metaHits.take (s.metaHits.length - k) ∧
      1 ≤ (trimStage4 cap s).1.content.length ∧
      ((trimStage4 cap s).1.content.length ≤ 1 ∨
        resultBytes ⟨(trimStage4 cap s).1.content, (trimStage4 cap s).1.metaHits,
          s.meta⟩ ≤ cap) ∧
      (∀ i, i + 2 < (trimStage4 cap s).1.content.length →
        (trimStage4 cap s).1.content.get? (i + 2) = s.content.get? (i + 2) ∧
        (trimStage4 cap s).1.metaHits.get? i = s.metaHits.get? i) ∧
      (2 ≤ (trimStage4 cap s).1.content.length →
        (trimStage4 cap s).1.metaHits.length + 2
          = (trimStage4 cap s).1.content.length)) ∧
    ((trimStage4 cap s).1.content.length < s.content.length →
      (trimStage4 cap s).1.meta.complete = some false ∧
        (trimStage4 cap s).2 = true) := by
  refine ⟨?_, ?_, ?_, ?_⟩
  · by_cases hov : resultBytes s > cap
    · rw [trimStage3_entered _ _ hov]
      obtain ⟨j, hj, hlen, _, _, _⟩ := zeroLoop_spec cap s.metaHits s.meta
        s.metaHits.length s.content
      exact hlen
    · unfold trimStage3
      rw [if_neg hov]
  · by_cases hov : resultBytes s > cap
    · rw [trimStage3_entered _ _ hov]
      obtain ⟨j, hj, hlen, hlow, hhigh, hmid⟩ := zeroLoop_spec cap s.metaHits s.meta
        s.metaHits.length s.content
      exact ⟨j, hj, hlow, hmid, hhigh⟩
    · unfold trimStage3
      rw [if_neg hov]
      exact ⟨s.metaHits.length, le_refl _, fun p _ => rfl,
        fun p h1 h2 => absurd h1 (by omega), fun p _ => rfl⟩
  · intro hover
    obtain ⟨k, htc, htm, htmeta, hwarn, hkb, hexit⟩ := trimStage4_entered cap s hover
    have hcl : (trimStage4 cap s).1.content.length = s.content.length - k := by
      rw [htc, List.length_take]
      omega
    have hml : (trimStage4 cap s).1.metaHits.length = s.metaHits.length - k := by
      rw [htm, List.length_take]
      omega
    refine ⟨k, htc, htm, ?_, hexit, ?_, ?_⟩
    · rw [hcl]
      omega
    · intro i hi
      rw [hcl] at hi
      constructor
      · rw [htc]
        exact List.get?_take (by omega)
      · rw [htm]
        exact List.get?_take (by omega)
    · intro h2
      rw [hml, hcl]
      rw [hcl] at h2
      omega
  · intro hdrop
    by_cases hov : resultBytes s > cap
    · obtain ⟨k, htc, htm, htmeta, hwarn, _, _⟩ := trimStage4_entered cap s hov
      constructor
      · rw [htmeta]
      · exact hwarn
    · exfalso
      have hid : trimStage4 cap s = (s, false) := by
        unfold trimStage4
        rw [if_neg hov]
      rw [hid] at hdrop
      simp at hdrop

/-- Witness for C7: on the aligned three-block state with one hit,
stage 3 preserves the number of content blocks. -/
theorem trim_stage34_pairing_witness :
    (trimStage3 0 ⟨[Block.text [], Block.text [], Block.resource [] [] [97]],
        [hit0], cexMeta⟩).content.length
      = ([Block.text [], Block.text [], Block.resource [] [] [97]] : List Block).length ∧
    ((trimStage4 0 ⟨[Block.text [], Block.text [], Block.resource [] [] [97]],
        [hit0], cexMeta⟩).1.content.length
          < ([Block.text [], Block.text [],
              Block.resource [] [] [97]] : List Block).length →
      (trimStage4 0 ⟨[Block.text [], Block.text [], Block.resource [] [] [97]],
          [hit0], cexMeta⟩).1.meta.complete = some false ∧
        (trimStage4 0 ⟨[Block.text [], Block.text [], Block.resource [] [] [97]],
            [hit0], cexMeta⟩).2 = true) := by
  have h := trim_stage34_pairing 0 ⟨[Block.text [], Block.text [],
      Block.resource [] [] [97]], [hit0], cexMeta⟩ rfl
  exact ⟨h.1, h.2.2.2⟩

/-- C10: at a byte budget of 0 — which no serialized response can meet,
since `resultBytes` is always positive — the stage-4 drop loop of the
full trimming procedure removes every block after the leading summary
text block, including the prompt-ready text block, stopping only when a
single block remains; the `metaHits` pops that accompany the drops
empty the hits list and then become no-ops, so the final state is the
summary block alone, an empty `metaHits` (still aligned with the
surviving blocks), and a completeness flag set to `false`. -/
theorem trimPayload_tiny_budget (s : TrimState) (t0 : JStr) (rest : List Block)
    (hb : s.content = Block.text t0 :: rest)
    (halign : s.metaHits.length + 2 = s.content.length) :
    (trimPayloadAt 0 s).content = [Block.text t0] ∧
    (trimPayloadAt 0 s).metaHits = [] ∧
    (trimPayloadAt 0 s).meta.complete = some false := by
  obtain ⟨m1, e1, l1, g1⟩ := trimStage1_basic 0 s
  obtain ⟨m2, e2, l2, g2⟩ := trimStage2_basic 0 (trimStage1 0 s)
  obtain ⟨m3, e3, l3, g3⟩ := trimStage3_basic 0 (trimStage2 0 (trimStage1 0 s))
  set s3 := trimStage3 0 (trimStage2 0 (trimStage1 0 s)) with hs3
  have hg0 : s.content.get? 0 = some (Block.text t0) := by
    rw [hb]; rfl
  have hg3 : s3.content.get? 0 = some (Block.text t0) := by
    rw [g3]
    exact g2 t0 (by rw [g1]; exact hg0)
  have hl3 : s3.content.length = s.content.length := by
    rw [l3, l2, l1]
  have hm3 : s3.metaHits = s.metaHits := by
    rw [m3, m2, m1]
  have hover3 : resultBytes s3 > 0 := resultBytes_pos _
  obtain ⟨k, htc, htm, htmeta, _, hkb, hexit⟩ := trimStage4_entered 0 s3 hover3
  have hfin : trimPayloadAt 0 s = (trimStage4 0 s3).1 := by
    rw [trimPayloadAt, hs3]
  have hlen4 : (trimStage4 0 s3).1.content.length = s3.content.length - k := by
    rw [htc, List.length_take]
    omega
  have hk1 : (trimStage4 0 s3).1.content.length ≤ 1 := by
    rcases hexit with h | h
    · exact h
    · exfalso
      have hpos := resultBytes_pos
        ⟨(trimStage4 0 s3).1.content, (trimStage4 0 s3).1.metaHits, s3.meta⟩
      omega
  have hge1 : 1 ≤ (trimStage4 0 s3).1.content.length := by
    rw [hlen4, hl3]
    rw [hl3] at hkb
    omega
  refine ⟨?_, ?_, ?_⟩
  · rw [hfin, htc]
    have hone : s3.content.length - k = 1 := by
      rw [hlen4] at hk1 hge1
      omega
    rw [hone]
    exact take_one_of_get0 _ _ hg3
  · rw [hfin, htm]
    have hzero : s3.metaHits.length - k = 0 := by
      rw [hlen4] at hk1 hge1
      rw [hm3]
      rw [hl3] at hk1 hge1
      omega
    rw [hzero]
    simp
  · rw [hfin, htmeta]

/-- Witness for C10: the aligned three-block, one-hit state trims at
budget 0 to the summary block alone, empty hits, and
`complete = false`. -/
theorem trimPayload_tiny_budget_witness :
    (trimPayloadAt 0 ⟨[Block.text [97], Block.text [98, 99],
        Block.resource [] [] [100]], [hit0], cexMeta⟩).content
      = [Block.text [97]] ∧
    (trimPayloadAt 0 ⟨[Block.text [97], Block.text [98, 99],
        Block.resource [] [] [100]], [hit0], cexMeta⟩).metaHits = [] ∧
    (trimPayloadAt 0 ⟨[Block.text [97], Block.text [98, 99],
        Block.resource [] [] [100]], [hit0], cexMeta⟩).meta.complete
      = some false :=
  trimPayload_tiny_budget ⟨[Block.text [97], Block.text [98, 99],
      Block.resource [] [] [100]], [hit0], cexMeta⟩ [97]
    [Block.text [98, 99], Block.resource [] [] [100]] rfl rfl

/-- C8 (amended): stage 1 and stage 3 never increase the serialized
size; stage 2 never increases it provided every resource text is free
of surrogate code units (cutting a text that ends inside a surrogate
pair can otherwise grow the serialization, since well-formed
`JSON.stringify` expands a stranded surrogate to a 6-byte escape);
stage 4 never increases it provided the completeness flag is already
`false` (otherwise the unconditionally-added `"complete":false` field
adds up to 17 bytes); and a second run of the full trimmer is a no-op
provided the first run ended within budget or with a single content
block (the loop exit conditions), which fails to hold exactly when the
flag update pushed the size back over the budget. -/
theorem trimPayload_monotone_idem_amended :
    (∀ cap s, resultBytes (trimStage1 cap s) ≤ resultBytes s) ∧
    (∀ cap s, (∀ b ∈ s.content, blockTextSF b) →
      resultBytes (trimStage2 cap s) ≤ resultBytes s) ∧
    (∀ cap s, resultBytes (trimStage3 cap s) ≤ resultBytes s) ∧
    (∀ cap s, s.meta.complete = some false →
      resultBytes (trimStage4 cap s).1 ≤ resultBytes s) ∧
    (∀ cap s, resultBytes (trimPayloadAt cap s) ≤ cap ∨
        (trimPayloadAt cap s).content.length ≤ 1 →
      trimPayloadAt cap (trimPayloadAt cap s) = trimPayloadAt cap s) :=
  ⟨trimStage1_le, trimStage2_le, trimStage3_le, trimStage4_le, trimPayloadAt_idem⟩

/-- Witness for C8: the amended bounds and the restricted idempotence
instantiated at small concrete states, with every side condition
discharged. -/
theorem trimPayload_monotone_idem_amended_witness :
    resultBytes (trimStage2 0 ⟨[Block.resource [] [] [97]], [], cexMeta⟩)
      ≤ resultBytes ⟨[Block.resource [] [] [97]], [], cexMeta⟩ ∧
    resultBytes (trimStage4 0 ⟨[], [], cexMetaF⟩).1
      ≤ resultBytes ⟨[], [], cexMetaF⟩ ∧
    trimPayloadAt 100 (trimPayloadAt 100 ⟨[], [], cexMeta⟩)
      = trimPayloadAt 100 ⟨[], [], cexMeta⟩ := by
  refine ⟨?_, ?_, ?_⟩
  · refine trimPayload_monotone_idem_amended.2.1 0 _ ?_
    intro b hb
    simp only [List.mem_cons, List.not_mem_nil, or_false] at hb
    subst hb
    intro c hc
    simp only [List.mem_cons, List.not_mem_nil, or_false] at hc
    subst hc
    exact ⟨by decide, by decide⟩
  · exact trimPayload_monotone_idem_amended.2.2.2.1 0 _ rfl
  · refine trimPayload_monotone_idem_amended.2.2.2.2 100 _ (Or.inl ?_)
    have he : trimPayloadAt 100 ⟨[], [], cexMeta⟩ = ⟨[], [], cexMeta⟩ :=
      trimPayloadAt_of_le 100 _ (by rw [resultBytes_nil_meta0]; omega)
    rw [he, resultBytes_nil_meta0]
    omega

/-- Counterexample for C8 as stated: (1) on a one-block over-budget
response with `complete` still `undefined`, stage 4 *increases* the
serialized size by 17 bytes (from 72094 to 72111), because it
unconditionally adds `"complete":false` even though it can drop
nothing; (2) on a response whose resource text ends in a surrogate
pair, stage 2's floor cut strands the high surrogate and *increases*
the size by 2 bytes (from 72162 to 72164); (3) the full trimmer is not
idempotent: on `idemCexState` the first run drops one block and lands
on exactly 71680 ≤ CAP_BYTES bytes before the flag update, which pushes
it to 71697 > CAP_BYTES, so a second run drops another block. -/
theorem trimPayload_monotone_idem_cex :
    resultBytes (trimStage4 CAP_BYTES stage4CexState).1
      > resultBytes stage4CexState ∧
    resultBytes (trimStage2 CAP_BYTES stage2CexState)
      > resultBytes stage2CexState ∧
    trimPayloadAt CAP_BYTES (trimPayloadAt CAP_BYTES idemCexState)
      ≠ trimPayloadAt CAP_BYTES idemCexState := by
  refine ⟨?_, ?_, ?_⟩
  · rw [stage4Cex_result]
    dsimp only
    rw [sz_stage4CexF, sz_stage4Cex]
    omega
  · rw [stage2Cex_result, sz_stage2CexAfter, sz_stage2Cex]
    omega
  · rw [idemRun1, idemRun2]
    intro hEq
    have hmh := congrArg TrimState.metaHits hEq
    simp at hmh

end DolphinMCP
